import Mathlib

/-!
Roguathia: the `Character` class (src/character.js)

A shallow embedding of the equipment and inventory manager, the behavior chain
and the attack selection of `Character`, followed by the properties proved
about them.

Modelling conventions.
* A JavaScript object is a record; object identity is the record itself, so
  every record that stands for an object carries an `id` that tells two
  objects with equal contents apart.
* `this.equipment` is a JavaScript object used as a map from slot name to an
  array of items.  It is an association list in key insertion order.
* `this.inventory` is an array whose entries are items or `undefined`
  (`none`): the eviction loop of `tryEquip` pushes `worseItems[i]`.
* Collaborators that are not part of `character.js` (the race table, the hooks
  of the behaviors, `canUse` of items and attacks, the random sample) are
  fields of the records or parameters of the functions that call them.
* lodash calls are read as the array operation they denote: `_.without`
  removes every entry identical to the given value, `_.filter` keeps order,
  `_.sortBy` is a stable ascending sort, `_.each` stops as soon as the
  callback returns exactly `false`, `_.compact` drops falsy entries.  A chain
  `_(array).filter(f)` is a wrapper until `.value()` or a method such as
  `.sample()` unwraps it: `getWorseItemsThan` returns the wrapper itself.
-/

namespace Roguathia

/-! ## Data model -/

/-- An attack: its kind (`Fist`, ...) and its damage die. -/
structure Attack where
  name : String
  roll : String
  deriving DecidableEq, Repr

/-- An item instance.  `getParentType` is the slot the item is worn in,
`value` the result of `item.value()`, `goldValue` is `0` when the item has no
(truthy) gold value, `attacks` the attacks the item grants. -/
structure Item where
  id : Nat
  getParentType : String
  slotsTaken : Nat
  value : Int
  goldValue : Nat := 0
  attacks : List Attack := []
  deriving DecidableEq, Repr

/-- A behavior object: `name` is `constructor.name`, `priority` the sort key.
Its hooks are looked up by the caller of `doBehavior`. -/
structure Behavior where
  id : Nat
  name : String
  priority : Int
  deriving DecidableEq, Repr

/-- The race instance: `slots` maps a slot name to its capacity. -/
structure Race where
  slots : List (String × Nat) := []
  addFactions : List String := []
  deriving DecidableEq, Repr

/-- The equipment object: slot name to worn items, in key insertion order. -/
abbrev Equipment := List (String × List Item)

/-- Modelled from the spec: the resource pool `NumberRange` of lib/number-range,
a numeric value `cur` with the bounds `min` and `max`, made by
`new NumberRange(min, cur, max)`. -/
structure NumberRange where
  min : Int := 0
  cur : Int := 0
  max : Int := 0
  deriving DecidableEq, Repr

/-- The value of an attribute: absent (`undefined`), a number, or a dice expression
such as "1d4". -/
inductive StatVal where
  | absent
  | num (n : Int)
  | dice (expr : String)
  deriving DecidableEq, Repr

/-- The table `defaultAttributes`, as far as `getStat` reads it. -/
def defaultAttributes : List (String × StatVal) :=
  [("ac", .num 0), ("str", .num 8), ("con", .num 8), ("dex", .num 8), ("int", .num 8),
   ("wis", .num 8), ("cha", .num 8), ("luk", .num 0), ("speed", .num 100),
   ("sight", .num 7)]

/-- The dice expressions `config.hp` and `config.mp` of a profession. -/
structure ProfessionConfig where
  hp : String := "0d0"
  mp : String := "0d0"
  deriving DecidableEq, Repr

/-- The profession instance: the items its `startingItems` factories make, its
factions, its own attributes (`professionInst[stat]`) and its level-up dice. -/
structure Profession where
  startingItems : List Item := []
  addFactions : List String := []
  hp : Int := 0
  mp : Int := 0
  attributes : List (String × StatVal) := []
  config : ProfessionConfig := {}
  deriving DecidableEq, Repr

/-- The fields of a `Character` that the modelled methods read or write.  `id` is
the identity of the entity for the world and the scheduler; `killXp` is the
amount a killer gains; `lastDirection` is `none` while it is `undefined`. -/
structure Character where
  name : String := "Dudley"
  gold : Nat := 0
  attacks : List Attack := []
  behaviors : List Behavior := []
  raceInst : Race := {}
  inventory : List (Option Item) := []
  equipment : Equipment := []
  id : Nat := 0
  factions : List String := []
  antiFactions : List String := []
  currentTurn : Nat := 0
  attributes : List (String × StatVal) := defaultAttributes
  level : Nat := 1
  killXp : Nat := 0
  regenHp : Nat := 20
  regenMp : Nat := 10
  hp : NumberRange := {}
  mp : NumberRange := {}
  xp : NumberRange := {}
  professionInst : Profession := {}
  lastDirection : Option Nat := none
  killerName : Option String := none
  deriving DecidableEq, Repr

/-! ## Equipment and inventory -/

/-- The array `equipment[slot]`; a slot the object has no key for reads as the
empty array (every use treats `undefined` and `[]` alike). -/
def getSlot : Equipment → String → List Item
  | [], _ => []
  | (k, v) :: rest, slot => if k = slot then v else getSlot rest slot

/-- The assignment `equipment[slot] = v`: an existing key keeps its place, a new key
goes last. -/
def setSlot : Equipment → String → List Item → Equipment
  | [], slot, v => [(slot, v)]
  | (k, w) :: rest, slot, v =>
    if k = slot then (k, v) :: rest else (k, w) :: setSlot rest slot v

/-- The lookup `raceInst.slots[slot]`, `none` for `undefined`. -/
def Race.slotsAt (r : Race) (slot : String) : Option Nat :=
  r.slots.lookup slot

/-- Capacity of a slot as a number: a slot the race does not list has none. -/
def Race.capacity (r : Race) (slot : String) : Nat :=
  (r.slotsAt slot).getD 0

/-- A lodash wrapper `_(array)...`, a chain that `.value()` would unwrap to `value`.
The wrapper is an object of its own: it has no property `length` and no
numeric properties. -/
structure Wrapper where
  value : List Item
  deriving DecidableEq, Repr

/-- The property `length` of a lodash wrapper, which reads `undefined`. -/
def Wrapper.length (_ : Wrapper) : Option Nat := none

/-- The property `[i]` of a lodash wrapper, which reads `undefined`. -/
def Wrapper.get (_ : Wrapper) (_ : Nat) : Option Item := none

/-- The comparison `a < b` of JavaScript on numbers that may be `undefined`: with an
`undefined` operand it is false. -/
def jsLess : Option Nat → Option Nat → Bool
  | some x, some y => decide (x < y)
  | _, _ => false

/-- The call `_.without(array, value)` on an array of items; `value` may be `undefined`,
which no item is identical to. -/
def without (xs : List Item) : Option Item → List Item
  | none => xs
  | some w => xs.filter (fun x => decide (x ≠ w))

namespace Character

/-- Method `removeFromInventory(item)`. -/
def removeFromInventory (c : Character) (item : Item) : Character :=
  { c with inventory := c.inventory.filter (fun x => decide (x ≠ some item)) }

/-- Method `isEquipped(item)`. -/
def isEquipped (c : Character) (item : Item) : Bool :=
  decide (item ∈ getSlot c.equipment item.getParentType)

/-- Method `slotsTaken(slot)`: the reduce over the items of the slot, `0` for an absent slot. -/
def slotsTaken (c : Character) (slot : String) : Nat :=
  (getSlot c.equipment slot).foldl (fun prev item => prev + item.slotsTaken) 0

/-- Method `canEquip(item)`: `itemSlots < totalSlots - slotsTaken`.  With `totalSlots`
undefined the right side is `NaN` and the comparison is false. -/
def canEquip (c : Character) (item : Item) : Bool :=
  let slot := item.getParentType
  let slotsTaken := c.slotsTaken slot
  match c.raceInst.slotsAt slot with
  | none => false
  | some totalSlots =>
    let itemSlots := item.slotsTaken
    decide ((itemSlots : Int) < (totalSlots : Int) - (slotsTaken : Int))

/-- Method `equip(item)`. -/
def equip (c : Character) (item : Item) : Character :=
  let slot := item.getParentType
  { c with equipment := setSlot c.equipment slot (getSlot c.equipment slot ++ [item]) }

/-- Method `getWorseItemsThan(item)`: the chain `_(equipment[slot]).filter(...)`, which
the method returns without unwrapping it by `.value()`. -/
def getWorseItemsThan (c : Character) (item : Item) : Wrapper :=
  let slot := item.getParentType
  { value := (getSlot c.equipment slot).filter
      (fun equip => decide (equip.value < item.value)) }

/-- Method `shouldEquip(item)`. -/
def shouldEquip (c : Character) (item : Item) : Bool :=
  let slot := item.getParentType
  if (match c.raceInst.slotsAt slot with
      | none => false
      | some n => decide (0 < n)) && c.canEquip item then true
  else
    let lowerItems := c.getWorseItemsThan item
    jsLess lowerItems.length (some item.slotsTaken)

/-- One pass of the eviction loop of `tryEquip`, for the value `w` of
`worseItems[i]`. -/
def evictStep (slot : String) (c : Character) (w : Option Item) : Character :=
  { c with
    equipment := setSlot c.equipment slot (without (getSlot c.equipment slot) w)
    inventory := c.inventory ++ [w] }

/-- Method `tryEquip(item)`: the returned flag and the character afterwards. -/
def tryEquip (c : Character) (item : Item) : Bool × Character :=
  if !c.canEquip item || !c.shouldEquip item then (false, c)
  else
    let worseItems := c.getWorseItemsThan item
    let slot := item.getParentType
    let c1 :=
      if jsLess (some 0) worseItems.length then
        (List.range item.slotsTaken).foldl
          (fun acc i => evictStep slot acc (worseItems.get i)) c
      else c
    (true, c1.equip item)

/-- Method `addToInventory(item)`. -/
def addToInventory (c : Character) (item : Item) : Character :=
  if item.goldValue ≠ 0 then { c with gold := c.gold + item.goldValue }
  else
    let r := c.tryEquip item
    if r.1 then r.2
    else { r.2 with inventory := r.2.inventory ++ [some item] }

end Character

/-- A call made on a character from outside. -/
inductive EquipCall where
  | addToInventory (item : Item)
  | tryEquip (item : Item)
  deriving DecidableEq, Repr

/-- The character after one call. -/
def EquipCall.run (c : Character) : EquipCall → Character
  | .addToInventory item => c.addToInventory item
  | .tryEquip item => (c.tryEquip item).2

/-- The character after a sequence of calls, first call first. -/
def runCalls (c : Character) (calls : List EquipCall) : Character :=
  calls.foldl EquipCall.run c

/-- Occurrences of `x` among all worn items, over every slot. -/
def wornCount (x : Item) (e : Equipment) : Nat :=
  (e.map (fun p => p.2.count x)).sum

/-- Occurrences of `x` in the inventory and in the equipment together. -/
def placeCount (x : Item) (c : Character) : Nat :=
  c.inventory.count (some x) + wornCount x c.equipment

/-- The capacity invariant: no slot holds more than the race allows. -/
def SlotsWithinCapacity (c : Character) : Prop :=
  ∀ slot, c.slotsTaken slot ≤ c.raceInst.capacity slot

/-- Every item is in one place if it was added and nowhere otherwise. -/
def PlacedOnce (added : List Item) (c : Character) : Prop :=
  ∀ x, placeCount x c = if x ∈ added then 1 else 0

/-! ## Behavior chain -/

/-- A JavaScript value, as passed to and returned by the hooks of behaviors. -/
inductive JSVal where
  | undefined
  | null
  | bool (b : Bool)
  | num (n : Int)
  | str (s : String)
  | obj (ref : Nat)
  deriving DecidableEq, Repr

/-- JavaScript falsiness. -/
def JSVal.falsy : JSVal → Bool
  | .undefined => true
  | .null => true
  | .bool b => !b
  | .num n => decide (n = 0)
  | .str s => decide (s = "")
  | .obj _ => false

/-- What running a hook leaves: the character, the rest of the game state, and
the value the hook returned. -/
structure HookResult (σ : Type) where
  self : Character
  world : σ
  ret : JSVal

/-- A hook `behavior[action]`, applied to `(character, ...args)` in a game state. -/
abbrev Hook (σ : Type) := Character → List JSVal → σ → HookResult σ

/-- The table of hooks: `hookOf b action` is `b[action]`, `none` when the behavior
has no such hook. -/
abbrev Hooks (σ : Type) := Behavior → String → Option (Hook σ)

/-- One invocation of a hook, as seen from outside. -/
structure Call where
  behavior : Behavior
  self : Character
  args : List JSVal
  ret : JSVal
  deriving DecidableEq, Repr

/-- What `doBehavior` leaves, with the hook invocations it made, first one first. -/
structure Outcome (σ : Type) where
  self : Character
  world : σ
  calls : List Call

/-- The `_.each` over the behaviors array with the callback of `doBehavior`:
a behavior without the hook makes the callback return `undefined`; the
iteration stops when the callback returns exactly `false`. -/
def eachBehavior {σ : Type} (hookOf : Hooks σ) (action : String) (args : List JSVal) :
    List Behavior → Character → σ → Outcome σ
  | [], c, w => { self := c, world := w, calls := [] }
  | b :: rest, c, w =>
    match hookOf b action with
    | none => eachBehavior hookOf action args rest c w
    | some hook =>
      let r := hook c args w
      let call : Call := { behavior := b, self := c, args := args, ret := r.ret }
      if r.ret = JSVal.bool false then
        { self := r.self, world := r.world, calls := [call] }
      else
        let out := eachBehavior hookOf action args rest r.self r.world
        { out with calls := call :: out.calls }

/-- The order `_.sortBy(behaviors, "priority")` sorts by. -/
def Behavior.le (a b : Behavior) : Prop := a.priority ≤ b.priority

instance : DecidableRel Behavior.le := fun a b => Int.decLe a.priority b.priority

instance : IsTotal Behavior Behavior.le := ⟨fun a b => Int.le_total a.priority b.priority⟩

instance : IsTrans Behavior Behavior.le := ⟨fun _ _ _ hab hbc => Int.le_trans hab hbc⟩

/-- The strict order of priorities. -/
def Behavior.lt (a b : Behavior) : Prop := a.priority < b.priority

instance : IsAntisymm Behavior Behavior.lt :=
  ⟨fun a _ hab hba => absurd (Int.lt_trans hab hba) (Int.lt_irrefl a.priority)⟩

/-- The call `_.sortBy(behaviors, "priority")`: a stable ascending sort. -/
def sortByPriority (bs : List Behavior) : List Behavior :=
  bs.insertionSort Behavior.le

namespace Character

/-- Method `doBehavior(action, args)`: iterates the behaviors array as it is at the call. -/
def doBehavior {σ : Type} (hookOf : Hooks σ) (c : Character) (action : String)
    (args : List JSVal) (w : σ) : Outcome σ :=
  eachBehavior hookOf action args c.behaviors c w

/-- Method `sortBehaviors()`. -/
def sortBehaviors (c : Character) : Character :=
  { c with behaviors := sortByPriority c.behaviors }

/-- Method `addBehavior(behavior)`. -/
def addBehavior (c : Character) (behavior : Behavior) : Character :=
  sortBehaviors { c with behaviors := c.behaviors ++ [behavior] }

/-- Method `hasBehavior(behavior)`, the argument being a constructor name; the pluck of
`constructor.name` is read as the list of the constructor names of the behaviors. -/
def hasBehavior (c : Character) (behavior : String) : Bool :=
  decide (behavior ∈ c.behaviors.map Behavior.name)

/-- Method `addUniqueBehavior(behavior)`. -/
def addUniqueBehavior (c : Character) (behavior : Behavior) : Character :=
  if c.hasBehavior behavior.name then c else c.addBehavior behavior

/-- Method `removeBehavior(behavior)`. -/
def removeBehavior (c : Character) (behavior : Behavior) : Character :=
  { c with behaviors := c.behaviors.filter (fun b => decide (b ≠ behavior)) }

end Character

/-! ## Construction -/

/-- The options of the constructor that the modelled fields come from, the
defaults applied.  The dice expressions `spawnHp`, `spawnMp` and the
contributions of the profession are taken as the numbers they resolve to. -/
structure Opts where
  name : String := "Dudley"
  gold : Nat := 0
  attacks : List Attack := []
  behaviors : List Behavior := []
  id : Nat := 0
  factions : List String := []
  antiFactions : List String := []
  attributes : List (String × StatVal) := defaultAttributes
  level : Nat := 1
  killXp : Nat := 0
  regenHp : Nat := 20
  regenMp : Nat := 10
  spawnHp : Int := 15
  spawnMp : Int := 0
  deriving DecidableEq, Repr

/-- Method `calcLevelXp(level)`: `10 * Math.pow(2, level)`. -/
def calcLevelXp (level : Nat) : Int :=
  10 * 2 ^ level

namespace Character

/-- Method `loadStartingEquipment()`. -/
def loadStartingEquipment (c : Character) (prof : Profession) : Character :=
  prof.startingItems.foldl addToInventory c

/-- The constructor: defaults and options, `sortBehaviors()`, the profession
instance and the pools, the race instance, empty inventory and equipment,
then the starting items. -/
def create (opts : Opts) (race : Race) (prof : Profession) : Character :=
  let c : Character :=
    sortBehaviors { name := opts.name, gold := opts.gold, attacks := opts.attacks,
                    behaviors := opts.behaviors, id := opts.id,
                    factions := opts.factions, antiFactions := opts.antiFactions,
                    attributes := opts.attributes, level := opts.level,
                    killXp := opts.killXp, regenHp := opts.regenHp,
                    regenMp := opts.regenMp }
  let c : Character :=
    { c with
      professionInst := prof
      hp := { min := 0, cur := opts.spawnHp + prof.hp, max := opts.spawnHp + prof.hp }
      mp := { min := 0, cur := opts.spawnMp + prof.mp, max := opts.spawnMp + prof.mp }
      xp := { min := 0, cur := 0, max := calcLevelXp c.level }
      factions := c.factions ++ prof.addFactions ++ race.addFactions }
  loadStartingEquipment { c with raceInst := race, inventory := [], equipment := [] } prof

end Character

/-- A call that changes the behaviors of a character. -/
inductive BehaviorCall where
  | addBehavior (b : Behavior)
  | addUniqueBehavior (b : Behavior)
  | removeBehavior (b : Behavior)
  deriving DecidableEq, Repr

/-- The character after one call. -/
def BehaviorCall.run (c : Character) : BehaviorCall → Character
  | .addBehavior b => c.addBehavior b
  | .addUniqueBehavior b => c.addUniqueBehavior b
  | .removeBehavior b => c.removeBehavior b

/-- The character after a sequence of calls, first call first. -/
def runBehaviorCalls (c : Character) (calls : List BehaviorCall) : Character :=
  calls.foldl BehaviorCall.run c

/-- A call of one of the modelled mutators of a character. -/
inductive MethodCall where
  | equipment (call : EquipCall)
  | behaviors (call : BehaviorCall)
  deriving DecidableEq, Repr

/-- The character after one call. -/
def MethodCall.run (c : Character) : MethodCall → Character
  | .equipment call => call.run c
  | .behaviors call => call.run c

/-- The character after a sequence of calls, first call first. -/
def runMethodCalls (c : Character) (calls : List MethodCall) : Character :=
  calls.foldl MethodCall.run c

/-- The behaviors are in non-decreasing order of priority. -/
def BehaviorsSorted (c : Character) : Prop :=
  c.behaviors.Sorted Behavior.le

/-! ## Attacks -/

/-- Modelled from the spec: `Attacks.Fist(roll)` of the attacks module, the
default unarmed attack ("fist") with the given damage die. -/
def Attacks.Fist (roll : String) : Attack :=
  { name := "Fist", roll := roll }

/-- The `_.sample` of an array: an entry picked by the random number `rnd`,
`undefined` for the empty array. -/
def sample {α : Type} (xs : List α) (rnd : Nat) : Option α :=
  xs[rnd % xs.length]?

/-- The attacks of the usable items among `items`:
`filter(item => item.canUse(this) && item.attacks).map(item => item.attacks).flatten()`. -/
def itemAttacks (itemCanUse : Item → Bool) (items : List Item) : List Attack :=
  ((items.filter (fun item => itemCanUse item)).map Item.attacks).flatten

/-- The entries of the inventory as items; `none` when an entry is `undefined`,
on which `item.canUse` throws. -/
def carriedItems : List (Option Item) → Option (List Item)
  | [] => some []
  | none :: _ => none
  | some item :: rest => (carriedItems rest).map (fun items => item :: items)

namespace Character

/-- Method `getAttacks()`.  `itemCanUse item` is `item.canUse(this)`, `atkCanUse atk` is
`atk.canUse(this)`, `rnd` drives `sample()`.  The result is `none` when the
method throws: an `undefined` inventory entry has no `canUse`. -/
def getAttacks (itemCanUse : Item → Bool) (atkCanUse : Attack → Bool) (rnd : Nat)
    (c : Character) : Option (List Attack) :=
  let baseAttacks := c.attacks
  let attacks := baseAttacks ++ itemAttacks itemCanUse (c.equipment.map Prod.snd).flatten
  let attacks := if attacks.length = 0 then [Attacks.Fist "1d4"] else attacks
  match carriedItems c.inventory with
  | none => none
  | some carried =>
    let inventoryAttacks := itemAttacks itemCanUse carried
    match attacks.head? with
    | none => none
    | some first =>
      if atkCanUse first then some attacks
      else some (sample (inventoryAttacks.filter (fun atk => atkCanUse atk)) rnd).toList

end Character

/-- The attacks of the equipment and the innate attacks together, as `getAttacks()`
builds them: the innate attacks, then the attacks of the usable worn items,
and the default fist when there is none. -/
def combinedAttacks (itemCanUse : Item → Bool) (c : Character) : List Attack :=
  if (c.attacks ++ itemAttacks itemCanUse (c.equipment.map Prod.snd).flatten).length = 0
  then [Attacks.Fist "1d4"]
  else c.attacks ++ itemAttacks itemCanUse (c.equipment.map Prod.snd).flatten

/-! ## Factions -/

/-- The distinct entries of a list, first occurrences kept in order. -/
def uniq : List String → List String
  | [] => []
  | x :: xs => x :: (uniq xs).filter (fun y => decide (y ≠ x))

/-- The call `_.intersection(a, b)`: the distinct entries of `a` that are in `b`. -/
def intersection (a b : List String) : List String :=
  uniq (a.filter (fun x => decide (x ∈ b)))

namespace Character

/-- Method `hasFaction(faction)`. -/
def hasFaction (c : Character) (faction : String) : Bool :=
  decide (faction ∈ c.factions)

/-- Method `canAttack(entity)`. -/
def canAttack (c : Character) (entity : Character) : Bool :=
  decide (0 < (intersection entity.factions c.antiFactions).length)

end Character

/-! ## Resource pools -/

/-- Modelled from the spec: `add(n)` of the pool increases the current value,
clamped to `max`. -/
def NumberRange.add (r : NumberRange) (n : Nat) : NumberRange :=
  { r with cur := if r.cur + n ≤ r.max then r.cur + n else r.max }

/-- Modelled from the spec: `sub(n)` of the pool decreases the current value,
clamped to `min`. -/
def NumberRange.sub (r : NumberRange) (n : Nat) : NumberRange :=
  { r with cur := if r.min ≤ r.cur - n then r.cur - n else r.min }

/-- Modelled from the spec: the predicate `atMin()` of the pool. -/
def NumberRange.atMin (r : NumberRange) : Bool :=
  decide (r.cur = r.min)

/-- Modelled from the spec: the predicate `atMax()` of the pool. -/
def NumberRange.atMax (r : NumberRange) : Bool :=
  decide (r.cur = r.max)

/-- The current value of a pool is within its bounds. -/
def NumberRange.Bounded (r : NumberRange) : Prop :=
  r.min ≤ r.cur ∧ r.cur ≤ r.max

/-- The three pools of a character have `min = 0` and are within their bounds. -/
def PoolsBounded (c : Character) : Prop :=
  (c.hp.min = 0 ∧ c.hp.Bounded) ∧ (c.mp.min = 0 ∧ c.mp.Bounded) ∧
  (c.xp.min = 0 ∧ c.xp.Bounded)

/-! ## Stats and progression -/

/-- The dice roller: `dice k expr` is what the `k`-th call of `dice.roll` within an
operation returns for the expression `expr`. -/
abbrev Dice := Nat → String → Int

/-- The property `object[stat]` of an attribute table. -/
def attributeOf (attributes : List (String × StatVal)) (stat : String) : StatVal :=
  (attributes.lookup stat).getD StatVal.absent

namespace Character

/-- Method `rollOrAdd(val)`, with the number of rolls made so far threaded: a string
is rolled, a number is itself, and a falsy value is `0`. -/
def rollOrAdd (dice : Dice) (k : Nat) : StatVal → Int × Nat
  | .dice expr => (dice k expr, k + 1)
  | .num n => (n, k)
  | .absent => (0, k)

/-- Method `getStat(stat)`. -/
def getStat (dice : Dice) (k : Nat) (c : Character) (stat : String) : Int × Nat :=
  let own := rollOrAdd dice k (attributeOf c.attributes stat)
  let prof := rollOrAdd dice own.2 (attributeOf c.professionInst.attributes stat)
  (own.1 + prof.1, prof.2)

/-- Method `calcStatBonus(stat)`: `Math.floor(getStat(stat) / 2) - 4`, the getter
`getCon`, `getInt`, ... being `getStat` of that stat. -/
def calcStatBonus (dice : Dice) (k : Nat) (c : Character) (stat : String) : Int × Nat :=
  let s := c.getStat dice k stat
  (Int.fdiv s.1 2 - 4, s.2)

/-- Method `getAC()`. -/
def getAC (dice : Dice) (k : Nat) (c : Character) : Int × Nat :=
  let ac := c.getStat dice k "ac"
  let dex := c.calcStatBonus dice ac.2 "dex"
  (10 + ac.1 - dex.1, dex.2)

/-- Method `calcLevelHpBonus()`. -/
def calcLevelHpBonus (dice : Dice) (k : Nat) (c : Character) : Int × Nat :=
  let roll := dice k c.professionInst.config.hp
  let bonus := c.calcStatBonus dice (k + 1) "con"
  (roll + bonus.1, bonus.2)

/-- Method `calcLevelMpBonus()`. -/
def calcLevelMpBonus (dice : Dice) (k : Nat) (c : Character) : Int × Nat :=
  let roll := dice k c.professionInst.config.mp
  let bonus := c.calcStatBonus dice (k + 1) "int"
  (roll + bonus.1, bonus.2)

/-- Method `levelup()`.  `professionLevelup` is `professionInst.levelup()`; the
notification is not modelled. -/
def levelup (professionLevelup : Profession → Profession) (dice : Dice)
    (c : Character) : Character :=
  let c := { c with professionInst := professionLevelup c.professionInst }
  let c := { c with level := c.level + 1 }
  let hpBonus := c.calcLevelHpBonus dice 0
  let c := { c with hp := { c.hp with max := c.hp.max + hpBonus.1 } }
  let mpBonus := c.calcLevelMpBonus dice hpBonus.2
  let c := { c with mp := { c.mp with max := c.mp.max + mpBonus.1 } }
  let c := { c with xp := { c.xp with max := calcLevelXp c.level } }
  let c := { c with xp := { c.xp with cur := 0 } }
  let c := { c with hp := { c.hp with cur := c.hp.max } }
  { c with mp := { c.mp with cur := c.mp.max } }

/-- Method `gainXp(number)`. -/
def gainXp (professionLevelup : Profession → Profession) (dice : Dice)
    (c : Character) (number : Nat) : Character :=
  let c := { c with xp := c.xp.add number }
  if c.xp.atMax then c.levelup professionLevelup dice else c

/-- Method `act()`. -/
def act {σ : Type} (hookOf : Hooks σ) (c : Character) (w : σ) : Outcome σ :=
  let c := { c with currentTurn := c.currentTurn + 1 }
  let c := if c.currentTurn % c.regenHp = 0 then { c with hp := c.hp.add 1 } else c
  let c := if c.currentTurn % c.regenMp = 0 then { c with mp := c.mp.add 1 } else c
  c.doBehavior hookOf "act" [] w

end Character

/-! ## Damage and death -/

/-- The services a dying character is removed from: the entities the scheduler
holds and the entities the world holds, by `id`. -/
structure Game where
  scheduler : List Nat := []
  world : List Nat := []
  deriving DecidableEq, Repr

/-- The attacker passed to `takeDamage`: the character itself (one and the same
object) or another object. -/
inductive Attacker where
  | self
  | other (killer : Character)
  deriving DecidableEq, Repr

/-- What `kill` leaves: the killer, the services, and how often the method ran. -/
structure Slain where
  self : Character
  world : Game
  invocations : Nat

/-- What `takeDamage` leaves: the character, the attacker (the character again when
it attacked itself), the services, and how often `kill` was invoked on the
attacker. -/
structure Strike where
  self : Character
  attacker : Character
  game : Game
  killCalls : Nat

/-- The amounts `levelup()` adds to `hp.max` and to `mp.max`: what
`calcLevelHpBonus()` and then `calcLevelMpBonus()` return once the profession
has levelled up. -/
def levelupBonuses (professionLevelup : Profession → Profession) (dice : Dice)
    (c : Character) : Int × Int :=
  let c := { c with professionInst := professionLevelup c.professionInst }
  let hpBonus := c.calcLevelHpBonus dice 0
  let mpBonus := c.calcLevelMpBonus dice hpBonus.2
  (hpBonus.1, mpBonus.1)

/-- The level-up bonuses leave the new `hp.max` and `mp.max` at 0 or above. -/
def LevelupKeepsMaxima (professionLevelup : Profession → Profession) (dice : Dice)
    (c : Character) : Prop :=
  0 ≤ c.hp.max + (levelupBonuses professionLevelup dice c).1 ∧
  0 ≤ c.mp.max + (levelupBonuses professionLevelup dice c).2

namespace Character

/-- Method `kill(dead)`. -/
def kill (hookOf : Hooks Game) (professionLevelup : Profession → Profession)
    (dice : Dice) (c : Character) (dead : Character) (g : Game) : Slain :=
  let c := c.gainXp professionLevelup dice dead.killXp
  let out := c.doBehavior hookOf "kill" [] g
  { self := out.self, world := out.world, invocations := 1 }

/-- Method `die(killer)`; the notification is not modelled.  When the killer is the
character itself, `killer.kill(this)` runs on the dying character. -/
def die (hookOf : Hooks Game) (professionLevelup : Profession → Profession)
    (dice : Dice) (c : Character) (killer : Attacker) (g : Game) : Strike :=
  let died := c.doBehavior hookOf "die" [] g
  match killer with
  | .other killer =>
    let killed := killer.kill hookOf professionLevelup dice died.self died.world
    let self := { died.self with killerName := some killed.self.name }
    { self := self
      attacker := killed.self
      game := { scheduler := killed.world.scheduler.filter (fun e => decide (e ≠ c.id))
                world := killed.world.world.filter (fun e => decide (e ≠ c.id)) }
      killCalls := killed.invocations }
  | .self =>
    let killed := died.self.kill hookOf professionLevelup dice died.self died.world
    let self := { killed.self with killerName := some killed.self.name }
    { self := self
      attacker := self
      game := { scheduler := killed.world.scheduler.filter (fun e => decide (e ≠ c.id))
                world := killed.world.world.filter (fun e => decide (e ≠ c.id)) }
      killCalls := killed.invocations }

/-- Method `takeDamage(damage, attacker)`. -/
def takeDamage (hookOf : Hooks Game) (professionLevelup : Profession → Profession)
    (dice : Dice) (c : Character) (damage : Nat) (attacker : Attacker) (g : Game) :
    Strike :=
  let c := { c with hp := c.hp.sub damage }
  if c.hp.atMin then c.die hookOf professionLevelup dice attacker g
  else
    { self := c
      attacker := match attacker with
        | .self => c
        | .other killer => killer
      game := g
      killCalls := 0 }

end Character

/-! ## Random walk -/

/-- A tile descriptor of the world. -/
structure Tile where
  x : Int
  y : Int
  z : Int
  deriving DecidableEq, Repr

/-- What `stepRandomly` leaves: the character and the tile it asked the world to
move it to, if any. -/
structure Step where
  self : Character
  moveEntity : Option Tile
  deriving DecidableEq, Repr

/-- The array `validTiles`: for the tile at index `i`, `i + 1` when the world reports
it empty, `null` otherwise. -/
def validTiles (isTileEmpty : Tile → Bool) (tiles : List Tile) : List (Option Nat) :=
  tiles.enum.map (fun p => if isTileEmpty p.2 then some (p.1 + 1) else none)

/-- The call `_.compact` on such an array: `null` and `0` are dropped. -/
def compact (xs : List (Option Nat)) : List Nat :=
  xs.filterMap (fun v => v.bind (fun n => if n = 0 then none else some n))

/-- The array index `n - 1` of a tile number; `none` where the number is missing
or `0`, for which `tiles[n - 1]` is `undefined`. -/
def arrayIndex (n : Option Nat) : Option Nat :=
  n.bind (fun m => if m = 0 then none else some (m - 1))

namespace Character

/-- Method `stepRandomly()`.  `tiles` is what `getAllTilesInRange` returns,
`isTileEmpty` the query of the world, `calcProbs n` the table of weights that
`calc(n)` of lib/directional-probability returns, `getWeightedValue` the weighted draw of the random
source and `rnd` its draw for `sample()`. -/
def stepRandomly (tiles : List Tile) (isTileEmpty : Tile → Bool)
    (calcProbs : Nat → Nat → Nat) (getWeightedValue : List (Nat × Nat) → Option Nat)
    (rnd : Nat) (c : Character) : Step :=
  let valid := validTiles isTileEmpty tiles
  let direction := arrayIndex (sample (compact valid) rnd)
  let direction :=
    match c.lastDirection with
    | none => direction
    | some lastDirection =>
      if lastDirection = 0 then direction
      else
        let probs := calcProbs (lastDirection + 1)
        let choices := (compact valid).map (fun tileIndex => (tileIndex, probs tileIndex))
        arrayIndex (getWeightedValue choices)
  match direction.bind (fun d => tiles[d]?) with
  | none => { self := c, moveEntity := none }
  | some newTile => { self := { c with lastDirection := direction }, moveEntity := some newTile }

end Character

/-! ## Sample data -/

/-- A race with five body slots and one ring slot. -/
def sampleRace : Race := { slots := [("body", 5), ("ring", 1)] }

/-- A fresh character of that race. -/
def sampleCharacter : Character := { raceInst := sampleRace }

/-- A body item of one slot and value 1. -/
def leatherArmor : Item := { id := 1, getParentType := "body", slotsTaken := 1, value := 1 }

/-- A body item of two slots and value 5. -/
def plateMail : Item := { id := 2, getParentType := "body", slotsTaken := 2, value := 5 }

/-- A body item of five slots: as many as the race has. -/
def dragonScale : Item := { id := 3, getParentType := "body", slotsTaken := 5, value := 9 }

/-- A ring that fills the ring slot and also carries a gold value. -/
def goldRing : Item :=
  { id := 4, getParentType := "ring", slotsTaken := 1, value := 3, goldValue := 5 }

/-- A behavior of priority 1. -/
def wanders : Behavior := { id := 1, name := "Wanders", priority := 1 }

/-- A behavior of priority 2. -/
def guards : Behavior := { id := 2, name := "Guards", priority := 2 }

/-- A behavior of priority 3. -/
def strikes : Behavior := { id := 3, name := "Strikes", priority := 3 }

/-- Hooks for the `act` event only.  Every hook counts its invocation in the game
state; the hook of `Guards` returns `v`, every other hook returns `true`. -/
def sampleHooks (v : JSVal) : Hooks Nat := fun b action =>
  if action = "act" then
    some (fun c _ w =>
      { self := c, world := w + 1, ret := if b.name = "Guards" then v else JSVal.bool true })
  else none

/-- Hooks for the `act` event only: every hook adds a gold piece to the character;
the hook of `Guards` returns `false`, every other hook `undefined`. -/
def payingHooks : Hooks Nat := fun b action =>
  if action = "act" then
    some (fun c _ w =>
      { self := { c with gold := c.gold + 1 }, world := w,
        ret := if b.name = "Guards" then JSVal.bool false else JSVal.undefined })
  else none

/-- A character constructed with the three behaviors, given out of order. -/
def sampleActor : Character :=
  Character.create { behaviors := [strikes, wanders, guards] } sampleRace {}

/-- A bow: an inventory item that grants a ranged attack. -/
def shortBow : Item :=
  { id := 5, getParentType := "hands", slotsTaken := 2, value := 4,
    attacks := [{ name := "Shot", roll := "1d6" }] }

/-- A character of no race slots who carries the bow. -/
def archer : Character := { inventory := [some shortBow] }

/-- A character hostile to orcs, itself a human. -/
def orcHunter : Character := { factions := ["human"], antiFactions := ["orc", "troll"] }

/-- An orc. -/
def orc : Character := { id := 1, name := "Orc", factions := ["monster", "orc"] }

/-- A character at level 1 with an empty experience pool of maximum 20. -/
def novice : Character :=
  { hp := { min := 0, cur := 15, max := 15 }, xp := { min := 0, cur := 0, max := 20 } }

/-- A dice roller that rolls the least outcome: 1 on "1d8", 0 on anything else. -/
def lowRolls : Dice := fun _ expr => if expr = "1d8" then 1 else 0

/-- A character like `novice` without mana whose intelligence is 7. -/
def dullard : Character :=
  { novice with attributes := [("con", .num 8), ("int", .num 7)] }

/-- Hooks for the `die` event only: the hook of every behavior refills the hit
points of the dying character. -/
def healingHooks : Hooks Game := fun _ action =>
  if action = "die" then
    some (fun c _ w =>
      { self := { c with hp := { c.hp with cur := c.hp.max } }, world := w,
        ret := JSVal.undefined })
  else none

/-- A character like `novice` with one behavior. -/
def phoenix : Character := { novice with behaviors := [guards] }

/-- A character like `novice` in its 19th turn, wounded, with one behavior. -/
def veteran : Character :=
  { novice with currentTurn := 19, hp := { min := 0, cur := 10, max := 15 },
                behaviors := [wanders] }

/-- The scheduler and the world hold the entities 0 and 1. -/
def sampleGame : Game := { scheduler := [0, 1], world := [0, 1] }

/-- A character whose constitution is `s` and who has no other attribute. -/
def withCon (s : Int) : Character := { attributes := [("con", .num s)] }

/-- The nine tiles around the origin, row by row; index 4 is the origin. -/
def neighbourhood : List Tile :=
  [⟨-1, -1, 0⟩, ⟨0, -1, 0⟩, ⟨1, -1, 0⟩, ⟨-1, 0, 0⟩, ⟨0, 0, 0⟩, ⟨1, 0, 0⟩,
   ⟨-1, 1, 0⟩, ⟨0, 1, 0⟩, ⟨1, 1, 0⟩]

/-- Every tile but the origin is empty. -/
def openFloor : Tile → Bool := fun t => decide (t ≠ ⟨0, 0, 0⟩)

/-- Only the tile to the east of the origin is empty. -/
def corridorEast : Tile → Bool := fun t => decide (t = ⟨1, 0, 0⟩)

/-- A table of weights for the heading `n` (1 to 9): 10 for going on in the same
direction, 0 for reversing, 1 for any other tile. -/
def straightOn (n : Nat) (tileIndex : Nat) : Nat :=
  if tileIndex = n then 10 else if tileIndex + n = 10 then 0 else 1

/-- A weighted draw in the manner of `ROT.RNG.getWeightedValue`: `random` is the
draw below the total weight; the keys are passed in order until the running
weight exceeds it, the last key being the fallback. -/
def weightedDraw : Nat → List (Nat × Nat) → Option Nat
  | _, [] => none
  | _, [(key, _)] => some key
  | random, (key, weight) :: rest =>
    if random < weight then some key else weightedDraw (random - weight) rest

/-- A character like `novice` whose constitution is 9. -/
def sturdy : Character := { novice with attributes := [("con", .num 9)] }

end Roguathia

/-! ## Lemmas on the equipment map -/

namespace Roguathia

theorem getSlot_setSlot (e : Equipment) (k k' : String) (v : List Item) :
    getSlot (setSlot e k v) k' = if k = k' then v else getSlot e k' := by
  induction e with
  | nil => simp [setSlot, getSlot]
  | cons p rest ih =>
    obtain ⟨a, w⟩ := p
    by_cases hak : a = k
    · subst hak
      by_cases hk : a = k' <;> simp [setSlot, getSlot, hk]
    · by_cases hk : k = k'
      · subst hk
        simp [setSlot, getSlot, hak, ih]
      · simp [setSlot, getSlot, hak, ih, hk]

theorem getSlot_setSlot_same (e : Equipment) (k : String) (v : List Item) :
    getSlot (setSlot e k v) k = v := by
  simp [getSlot_setSlot]

theorem getSlot_setSlot_other (e : Equipment) (k k' : String) (v : List Item)
    (h : k ≠ k') : getSlot (setSlot e k v) k' = getSlot e k' := by
  simp [getSlot_setSlot, h]

theorem foldl_slots_eq (l : List Item) (n : Nat) :
    l.foldl (fun prev item => prev + item.slotsTaken) n
      = n + (l.map Item.slotsTaken).sum := by
  induction l generalizing n with
  | nil => simp
  | cons a l ih => simp [ih, Nat.add_assoc]

theorem slotsTaken_eq (c : Character) (slot : String) :
    c.slotsTaken slot = ((getSlot c.equipment slot).map Item.slotsTaken).sum := by
  simp [Character.slotsTaken, foldl_slots_eq]

theorem sum_filter_le (l : List Item) (p : Item → Bool) :
    ((l.filter p).map Item.slotsTaken).sum ≤ (l.map Item.slotsTaken).sum := by
  induction l with
  | nil => simp
  | cons a l ih =>
    by_cases h : p a
    · simp [List.filter_cons, h, ih]
    · simp [List.filter_cons, h]
      omega

theorem sum_without_le (l : List Item) (w : Option Item) :
    ((without l w).map Item.slotsTaken).sum ≤ (l.map Item.slotsTaken).sum := by
  cases w with
  | none => simp [without]
  | some w => exact sum_filter_le l _

/-! ## The guard of tryEquip -/

theorem equip_raceInst (c : Character) (item : Item) :
    (c.equip item).raceInst = c.raceInst := rfl

theorem equip_slotsTaken (c : Character) (item : Item) (s : String) :
    (c.equip item).slotsTaken s
      = if item.getParentType = s then c.slotsTaken s + item.slotsTaken
        else c.slotsTaken s := by
  simp only [slotsTaken_eq, Character.equip, getSlot_setSlot]
  by_cases h : item.getParentType = s
  · subst h
    simp
  · simp [h]

theorem canEquip_iff (c : Character) (item : Item) :
    c.canEquip item = true ↔
      (item.slotsTaken : Int)
        < (c.raceInst.capacity item.getParentType : Int)
          - (c.slotsTaken item.getParentType : Int) := by
  cases h : c.raceInst.slotsAt item.getParentType with
  | none =>
    simp only [Character.canEquip, Race.capacity, h, Option.getD_none]
    constructor
    · intro hf
      cases hf
    · intro hlt
      omega
  | some n =>
    simp only [Character.canEquip, Race.capacity, h, Option.getD_some, decide_eq_true_eq]

theorem shouldEquip_eq_canEquip (c : Character) (item : Item) :
    c.shouldEquip item = c.canEquip item := by
  cases hcan : c.canEquip item with
  | false => simp [Character.shouldEquip, hcan, Wrapper.length, jsLess]
  | true =>
    have hcan2 := hcan
    unfold Character.canEquip at hcan2
    cases hslots : c.raceInst.slotsAt item.getParentType with
    | none => simp [hslots] at hcan2
    | some n =>
      simp only [hslots, decide_eq_true_eq] at hcan2
      have hpos : 0 < n := by omega
      simp [Character.shouldEquip, hslots, hpos, hcan]

theorem tryEquip_eq (c : Character) (item : Item) :
    c.tryEquip item
      = if c.canEquip item && c.shouldEquip item
        then (true, c.equip item) else (false, c) := by
  unfold Character.tryEquip
  cases c.canEquip item <;> cases c.shouldEquip item <;>
    simp [Wrapper.length, jsLess]

theorem tryEquip_raceInst (c : Character) (item : Item) :
    (c.tryEquip item).2.raceInst = c.raceInst := by
  rw [tryEquip_eq]
  split
  · rfl
  · rfl

theorem tryEquip_within (c : Character) (item : Item) (h : SlotsWithinCapacity c) :
    SlotsWithinCapacity (c.tryEquip item).2 := by
  intro s
  rw [tryEquip_raceInst]
  rw [tryEquip_eq]
  split
  · rename_i hc
    simp only [Bool.and_eq_true] at hc
    have hcan := (canEquip_iff c item).1 hc.1
    simp only [equip_slotsTaken]
    by_cases hs : item.getParentType = s
    · subst hs
      simp only [if_true]
      omega
    · simp only [hs, if_false]
      exact h s
  · exact h s

theorem addToInventory_within (c : Character) (item : Item)
    (h : SlotsWithinCapacity c) : SlotsWithinCapacity (c.addToInventory item) := by
  unfold Character.addToInventory
  split
  · exact h
  · have := tryEquip_within c item h
    by_cases hr : (c.tryEquip item).1 = true
    · simpa [hr] using this
    · simp only [hr, if_false]
      exact this

theorem runCalls_within (calls : List EquipCall) (c : Character)
    (h : SlotsWithinCapacity c) : SlotsWithinCapacity (runCalls c calls) := by
  induction calls generalizing c with
  | nil => exact h
  | cons call calls ih =>
    simp only [runCalls, List.foldl_cons]
    apply ih
    cases call with
    | addToInventory item => exact addToInventory_within c item h
    | tryEquip item => exact tryEquip_within c item h

/-! ## Where an item is -/

theorem wornCount_setSlot (x : Item) (e : Equipment) (k : String) (v : List Item) :
    wornCount x (setSlot e k v) + (getSlot e k).count x
      = wornCount x e + v.count x := by
  induction e with
  | nil => simp [wornCount, setSlot, getSlot]
  | cons p rest ih =>
    obtain ⟨a, w⟩ := p
    by_cases hak : a = k
    · subst hak
      simp [wornCount, setSlot, getSlot]
      omega
    · simp only [wornCount, setSlot, getSlot, hak, if_false, List.map_cons,
        List.sum_cons] at ih ⊢
      omega

theorem equip_placeCount (c : Character) (item x : Item) :
    placeCount x (c.equip item) = placeCount x c + if x = item then 1 else 0 := by
  have h := wornCount_setSlot x c.equipment item.getParentType
    (getSlot c.equipment item.getParentType ++ [item])
  simp only [placeCount, Character.equip, List.count_append] at h ⊢
  by_cases hx : x = item
  · subst hx
    simp only [List.count_singleton_self, if_true] at h ⊢
    omega
  · have h3 : List.count x [item] = 0 := by
      rw [List.count_eq_zero]
      simpa using hx
    simp only [hx, if_false]
    omega

theorem addToInventory_placeCount (c : Character) (item : Item)
    (hgold : item.goldValue = 0) (x : Item) :
    placeCount x (c.addToInventory item) = placeCount x c + if x = item then 1 else 0 := by
  unfold Character.addToInventory
  simp only [hgold, ne_eq, not_true_eq_false, if_false]
  rw [tryEquip_eq]
  by_cases hc : (c.canEquip item && c.shouldEquip item) = true
  · simp only [hc, if_true]
    rw [equip_placeCount]
  · simp only [hc, if_false, Bool.false_eq_true]
    simp only [placeCount, List.count_append]
    by_cases hx : x = item
    · subst hx
      simp
      omega
    · have h3 : List.count (some x) [some item] = 0 := by
        rw [List.count_eq_zero]
        simpa using hx
      simp only [hx, if_false]
      omega

theorem addToInventory_placedOnce (c : Character) (item : Item) (added : List Item)
    (h : PlacedOnce added c) (hgold : item.goldValue = 0) (hnew : item ∉ added) :
    PlacedOnce (item :: added) (c.addToInventory item) := by
  intro x
  rw [addToInventory_placeCount c item hgold, h x]
  by_cases hx : x = item
  · subst hx
    simp [hnew]
  · simp [hx]

theorem foldl_addToInventory_placedOnce (items : List Item) (c : Character)
    (added : List Item) (h : PlacedOnce added c)
    (hgold : ∀ i ∈ items, i.goldValue = 0) (hnd : items.Nodup)
    (hnew : ∀ i ∈ items, i ∉ added) :
    PlacedOnce (items.reverse ++ added) (items.foldl Character.addToInventory c) := by
  induction items generalizing c added with
  | nil => simpa using h
  | cons i items ih =>
    simp only [List.foldl_cons, List.reverse_cons, List.append_assoc, List.singleton_append]
    rw [List.nodup_cons] at hnd
    apply ih
    · exact addToInventory_placedOnce c i added h (hgold i (List.mem_cons_self _ _))
        (hnew i (List.mem_cons_self _ _))
    · intro j hj
      exact hgold j (List.mem_cons_of_mem _ hj)
    · exact hnd.2
    · intro j hj
      simp only [List.mem_cons, not_or]
      refine ⟨?_, hnew j (List.mem_cons_of_mem _ hj)⟩
      rintro rfl
      exact hnd.1 hj

theorem runCalls_raceInst (calls : List EquipCall) (c : Character) :
    (runCalls c calls).raceInst = c.raceInst := by
  induction calls generalizing c with
  | nil => rfl
  | cons call calls ih =>
    simp only [runCalls, List.foldl_cons] at ih ⊢
    rw [ih]
    cases call with
    | addToInventory item =>
      simp only [EquipCall.run, Character.addToInventory]
      split
      · rfl
      · by_cases hr : (c.tryEquip item).1 = true
        · simp only [hr, if_true]
          exact tryEquip_raceInst c item
        · simp only [hr, if_false]
          exact tryEquip_raceInst c item
    | tryEquip item => exact tryEquip_raceInst c item

/-! ## Lemmas on the behaviors -/

theorem tryEquip_behaviors (c : Character) (item : Item) :
    (c.tryEquip item).2.behaviors = c.behaviors := by
  rw [tryEquip_eq]
  split
  · rfl
  · rfl

theorem addToInventory_behaviors (c : Character) (item : Item) :
    (c.addToInventory item).behaviors = c.behaviors := by
  unfold Character.addToInventory
  split
  · rfl
  · by_cases hr : (c.tryEquip item).1 = true
    · simp only [hr, if_true]
      exact tryEquip_behaviors c item
    · simp only [hr, if_false]
      exact tryEquip_behaviors c item

theorem foldl_addToInventory_behaviors (items : List Item) (c : Character) :
    (items.foldl Character.addToInventory c).behaviors = c.behaviors := by
  induction items generalizing c with
  | nil => rfl
  | cons i items ih => simp only [List.foldl_cons, ih, addToInventory_behaviors]

theorem create_behaviors (opts : Opts) (race : Race) (prof : Profession) :
    (Character.create opts race prof).behaviors = sortByPriority opts.behaviors := by
  simp only [Character.create, Character.loadStartingEquipment,
    foldl_addToInventory_behaviors, Character.sortBehaviors]

theorem sortByPriority_sorted (bs : List Behavior) :
    (sortByPriority bs).Sorted Behavior.le :=
  List.sorted_insertionSort Behavior.le bs

theorem sortByPriority_perm (bs : List Behavior) : (sortByPriority bs).Perm bs :=
  List.perm_insertionSort Behavior.le bs

theorem create_sorted (opts : Opts) (race : Race) (prof : Profession) :
    BehaviorsSorted (Character.create opts race prof) := by
  unfold BehaviorsSorted
  rw [create_behaviors]
  exact sortByPriority_sorted _

theorem run_sorted (c : Character) (call : BehaviorCall) (h : BehaviorsSorted c) :
    BehaviorsSorted (call.run c) := by
  cases call with
  | addBehavior b => exact sortByPriority_sorted _
  | addUniqueBehavior b =>
    simp only [BehaviorCall.run, Character.addUniqueBehavior]
    split
    · exact h
    · exact sortByPriority_sorted _
  | removeBehavior b => exact List.Sorted.filter _ h

theorem runBehaviorCalls_sorted (calls : List BehaviorCall) (c : Character)
    (h : BehaviorsSorted c) : BehaviorsSorted (runBehaviorCalls c calls) := by
  induction calls generalizing c with
  | nil => exact h
  | cons call calls ih =>
    simp only [runBehaviorCalls, List.foldl_cons]
    exact ih _ (run_sorted c call h)

theorem reachable_sorted (opts : Opts) (race : Race) (prof : Profession)
    (calls : List BehaviorCall) :
    BehaviorsSorted (runBehaviorCalls (Character.create opts race prof) calls) :=
  runBehaviorCalls_sorted calls _ (create_sorted opts race prof)

theorem methodCall_sorted (c : Character) (call : MethodCall) (h : BehaviorsSorted c) :
    BehaviorsSorted (call.run c) := by
  cases call with
  | equipment call =>
    cases call with
    | addToInventory item =>
      unfold BehaviorsSorted at h ⊢
      simp only [MethodCall.run, EquipCall.run, addToInventory_behaviors]
      exact h
    | tryEquip item =>
      unfold BehaviorsSorted at h ⊢
      simp only [MethodCall.run, EquipCall.run, tryEquip_behaviors]
      exact h
  | behaviors call => exact run_sorted c call h

theorem runMethodCalls_sorted (calls : List MethodCall) (c : Character)
    (h : BehaviorsSorted c) : BehaviorsSorted (runMethodCalls c calls) := by
  induction calls generalizing c with
  | nil => exact h
  | cons call calls ih =>
    simp only [runMethodCalls, List.foldl_cons]
    exact ih _ (methodCall_sorted c call h)

/-- The shape of the invocations of `eachBehavior`: they are a prefix of the
behaviors that have the hook, only the last one can have returned `false`, and
it did when the prefix is a proper one. -/
theorem eachBehavior_spec {σ : Type} (hookOf : Hooks σ) (action : String)
    (args : List JSVal) (bs : List Behavior) (c : Character) (w : σ) :
    ∃ rest,
      bs.filter (fun b => (hookOf b action).isSome)
        = (eachBehavior hookOf action args bs c w).calls.map Call.behavior ++ rest ∧
      (∀ call ∈ (eachBehavior hookOf action args bs c w).calls.dropLast,
        call.ret ≠ JSVal.bool false) ∧
      (rest ≠ [] → ∃ last,
        (eachBehavior hookOf action args bs c w).calls.getLast? = some last ∧
        last.ret = JSVal.bool false) ∧
      (∀ call ∈ (eachBehavior hookOf action args bs c w).calls, call.args = args) := by
  induction bs generalizing c w with
  | nil => exact ⟨[], by simp [eachBehavior]⟩
  | cons b bs ih =>
    cases hb : hookOf b action with
    | none =>
      obtain ⟨rest, h1, h2, h3, h4⟩ := ih c w
      refine ⟨rest, ?_, ?_, ?_, ?_⟩
      · simpa [eachBehavior, hb, List.filter_cons] using h1
      · simpa [eachBehavior, hb] using h2
      · simpa [eachBehavior, hb] using h3
      · simpa [eachBehavior, hb] using h4
    | some hook =>
      by_cases hret : (hook c args w).ret = JSVal.bool false
      · refine ⟨bs.filter (fun b => (hookOf b action).isSome), ?_, ?_, ?_, ?_⟩
        · simp [eachBehavior, hb, hret, List.filter_cons]
        · simp [eachBehavior, hb, hret]
        · intro _
          simp [eachBehavior, hb, hret]
        · simp [eachBehavior, hb, hret]
      · obtain ⟨rest, h1, h2, h3, h4⟩ := ih (hook c args w).self (hook c args w).world
        refine ⟨rest, ?_, ?_, ?_, ?_⟩
        · simp only [eachBehavior, hb, hret, if_false, List.filter_cons, Option.isSome_some,
            if_true, List.map_cons, List.cons_append]
          rw [h1]
        · simp only [eachBehavior, hb, hret, if_false]
          intro call hcall
          cases hcalls : (eachBehavior hookOf action args bs (hook c args w).self
              (hook c args w).world).calls with
          | nil =>
            rw [hcalls] at hcall
            simp at hcall
          | cons x xs =>
            rw [hcalls, List.dropLast_cons₂, List.mem_cons] at hcall
            rcases hcall with hc | hc
            · rw [hc]
              exact hret
            · apply h2
              rw [hcalls]
              exact hc
        · simp only [eachBehavior, hb, hret, if_false]
          intro hrest
          obtain ⟨last, hl, hf⟩ := h3 hrest
          refine ⟨last, ?_, hf⟩
          cases hcalls : (eachBehavior hookOf action args bs (hook c args w).self
              (hook c args w).world).calls with
          | nil =>
            rw [hcalls] at hl
            simp at hl
          | cons x xs =>
            rw [hcalls] at hl
            rw [List.getLast?_cons_cons]
            exact hl
        · simp only [eachBehavior, hb, hret, if_false, List.mem_cons]
          intro call hcall
          rcases hcall with hc | hc
          · rw [hc]
          · exact h4 call hc

theorem sorted_lt_of_sorted_le_of_nodup (bs : List Behavior)
    (hs : bs.Sorted Behavior.le) (hnd : (bs.map Behavior.priority).Nodup) :
    bs.Sorted Behavior.lt := by
  unfold List.Nodup at hnd
  rw [List.pairwise_map] at hnd
  unfold List.Sorted at hs ⊢
  refine (hs.and hnd).imp ?_
  intro a b hab
  exact lt_of_le_of_ne hab.1 hab.2

/-! ## Equipment and inventory: the claims -/

/-- C1. Equip invariant: starting from a character with empty equipment, after any
finite sequence of `addToInventory` and `tryEquip` calls, in every slot the sum
of `slotsTaken` over the items worn there is at most the capacity the race
gives that slot. -/
theorem equip_invariant (c : Character) (calls : List EquipCall)
    (hempty : c.equipment = []) (slot : String) :
    ((getSlot (runCalls c calls).equipment slot).map Item.slotsTaken).sum
      ≤ c.raceInst.capacity slot := by
  have h0 : SlotsWithinCapacity c := by
    intro s
    simp [slotsTaken_eq, hempty, getSlot]
  have h := runCalls_within calls c h0 slot
  rw [runCalls_raceInst, slotsTaken_eq] at h
  exact h

/-- Witness of C1: a fresh character that is given two body items. -/
theorem equip_invariant_witness :
    sampleCharacter.equipment = [] ∧
    ((getSlot (runCalls sampleCharacter
        [.addToInventory leatherArmor, .tryEquip plateMail]).equipment "body").map
          Item.slotsTaken).sum ≤ sampleCharacter.raceInst.capacity "body" :=
  ⟨rfl, equip_invariant sampleCharacter _ rfl "body"⟩

/-- C2, at the failing input. A character wearing `leatherArmor`, one worn item of lower
value, equips `plateMail`, which takes two slots. `getWorseItemsThan` returns
the lodash wrapper and not the array it would unwrap to (`[leatherArmor]`):
its `length` reads `undefined`, the test `worseItems.length > 0` is false and
the eviction loop does not run. The armor stays worn, the plate mail is
appended after it, and the inventory gains nothing. -/
theorem tryEquip_evicts_nothing :
    ((runCalls sampleCharacter [.addToInventory leatherArmor]).getWorseItemsThan
        plateMail).value = [leatherArmor] ∧
    ((runCalls sampleCharacter [.addToInventory leatherArmor]).getWorseItemsThan
        plateMail).length = none ∧
    (runCalls sampleCharacter [.addToInventory leatherArmor]).equipment
      = [("body", [leatherArmor])] ∧
    (runCalls sampleCharacter [.addToInventory leatherArmor]).tryEquip plateMail
      = (true, { sampleCharacter with
                  inventory := []
                  equipment := [("body", [leatherArmor, plateMail])] }) := by
  decide

/-- C3. No double-counting: starting from empty inventory and empty equipment, after
`addToInventory` of pairwise distinct items without gold value, every added
item occurs exactly once in the inventory and all equipment slots together:
it is in the inventory or worn in one slot, not both, and not lost. -/
theorem no_double_counting (c : Character) (items : List Item)
    (hinv : c.inventory = []) (hequip : c.equipment = [])
    (hdistinct : items.Nodup) (hgold : ∀ i ∈ items, i.goldValue = 0) :
    ∀ x ∈ items,
      (items.foldl Character.addToInventory c).inventory.count (some x)
        + wornCount x (items.foldl Character.addToInventory c).equipment = 1 := by
  intro x hx
  have h0 : PlacedOnce [] c := by
    intro y
    simp [placeCount, wornCount, hinv, hequip]
  have h := foldl_addToInventory_placedOnce items c [] h0 hgold hdistinct (by simp) x
  simp only [placeCount, List.append_nil, List.mem_reverse, hx, if_true] at h
  exact h

/-- Witness of C3: three distinct items; two are worn, the third does not fit and
goes to the inventory. -/
theorem no_double_counting_witness :
    sampleCharacter.inventory = [] ∧ sampleCharacter.equipment = [] ∧
    [leatherArmor, plateMail, dragonScale].Nodup ∧
    (∀ i ∈ [leatherArmor, plateMail, dragonScale], i.goldValue = 0) ∧
    ∀ x ∈ [leatherArmor, plateMail, dragonScale],
      ([leatherArmor, plateMail, dragonScale].foldl
          Character.addToInventory sampleCharacter).inventory.count (some x)
        + wornCount x ([leatherArmor, plateMail, dragonScale].foldl
            Character.addToInventory sampleCharacter).equipment = 1 :=
  ⟨rfl, rfl, by decide, by decide,
    no_double_counting sampleCharacter [leatherArmor, plateMail, dragonScale] rfl rfl
      (by decide) (by decide)⟩

/-- C4. If `canEquip(item)` is false, `tryEquip(item)` returns false and leaves the
character, its equipment and inventory included, as it was; `shouldEquip` is
not consulted. -/
theorem tryEquip_false_of_not_canEquip (c : Character) (item : Item)
    (h : c.canEquip item = false) : c.tryEquip item = (false, c) := by
  simp [Character.tryEquip, h]

/-- Witness of C4: `dragonScale` takes as many slots as the race has, so it does not
fit a fresh character. -/
theorem tryEquip_false_of_not_canEquip_witness :
    sampleCharacter.canEquip dragonScale = false ∧
    sampleCharacter.tryEquip dragonScale = (false, sampleCharacter) :=
  ⟨by decide, tryEquip_false_of_not_canEquip sampleCharacter dragonScale (by decide)⟩

/-- C5 as stated fails: `goldRing` takes exactly the remaining capacity of its slot, so
`canEquip` rejects it, yet `addToInventory` does not put it into the
inventory: the item has a gold value, which is added to `gold`, and the item
is dropped. -/
theorem exact_fit_currency_not_stored :
    (goldRing.slotsTaken : Int)
      = (sampleCharacter.raceInst.capacity goldRing.getParentType : Int)
        - (sampleCharacter.slotsTaken goldRing.getParentType : Int) ∧
    sampleCharacter.canEquip goldRing = false ∧
    some goldRing ∉ (sampleCharacter.addToInventory goldRing).inventory ∧
    sampleCharacter.addToInventory goldRing = { sampleCharacter with gold := 5 } := by
  decide

/-- C5, amended. `canEquip(item)` is true iff `item.slotsTaken` is strictly less than
the capacity of the slot minus the slots taken in it; an item that takes
exactly the remaining capacity is rejected by `canEquip` and by `tryEquip`,
and `addToInventory` appends it to the inventory, leaving the equipment as it
was, when the item has no gold value. -/
theorem canEquip_strict (c : Character) (item : Item) :
    (c.canEquip item = true ↔
      (item.slotsTaken : Int)
        < (c.raceInst.capacity item.getParentType : Int)
          - (c.slotsTaken item.getParentType : Int)) ∧
    ((item.slotsTaken : Int)
        = (c.raceInst.capacity item.getParentType : Int)
          - (c.slotsTaken item.getParentType : Int) →
      c.canEquip item = false ∧ c.tryEquip item = (false, c) ∧
      (item.goldValue = 0 →
        c.addToInventory item = { c with inventory := c.inventory ++ [some item] })) := by
  refine ⟨canEquip_iff c item, ?_⟩
  intro heq
  have hcan : c.canEquip item = false := by
    rw [Bool.eq_false_iff]
    intro h
    have := (canEquip_iff c item).1 h
    omega
  refine ⟨hcan, by simp [Character.tryEquip, hcan], ?_⟩
  intro hgold
  simp [Character.addToInventory, hgold, Character.tryEquip, hcan]

/-- Witness of C5 (amended): `dragonScale` takes all five body slots of a fresh
character. -/
theorem canEquip_strict_witness :
    (dragonScale.slotsTaken : Int)
      = (sampleCharacter.raceInst.capacity dragonScale.getParentType : Int)
        - (sampleCharacter.slotsTaken dragonScale.getParentType : Int) ∧
    dragonScale.goldValue = 0 ∧
    sampleCharacter.addToInventory dragonScale
      = { sampleCharacter with inventory := [some dragonScale] } :=
  ⟨by decide, rfl,
    ((canEquip_strict sampleCharacter dragonScale).2 (by decide)).2.2 rfl⟩

/-! ## Behavior chain: the claims -/

/-- C8. Sortedness invariant: after construction and after any finite sequence of
`addBehavior`, `addUniqueBehavior` and `removeBehavior` calls, the priorities
of the behaviors list are in non-decreasing order. -/
theorem behaviors_sorted (opts : Opts) (race : Race) (prof : Profession)
    (calls : List BehaviorCall) :
    ((runBehaviorCalls (Character.create opts race prof) calls).behaviors.map
      Behavior.priority).Sorted (fun p q => p ≤ q) := by
  have h := reachable_sorted opts race prof calls
  unfold BehaviorsSorted List.Sorted at h
  unfold List.Sorted
  rw [List.pairwise_map]
  exact h

/-- C9. `addUniqueBehavior(b)` leaves the character as it is when a behavior with the
constructor name of `b` is present; otherwise it is `addBehavior(b)`: the
behaviors become the sorted list of the old ones with `b` pushed, which holds
`b` and every old behavior. Calling it a second time with a behavior of the
same constructor name changes nothing more. -/
theorem addUniqueBehavior_once (c : Character) (b : Behavior) :
    ((∃ x ∈ c.behaviors, x.name = b.name) → c.addUniqueBehavior b = c) ∧
    ((¬ ∃ x ∈ c.behaviors, x.name = b.name) →
      (c.addUniqueBehavior b).behaviors = sortByPriority (c.behaviors ++ [b]) ∧
      (c.addUniqueBehavior b).behaviors.Perm (c.behaviors ++ [b])) ∧
    (∀ b2 : Behavior, b2.name = b.name →
      (c.addUniqueBehavior b).addUniqueBehavior b2 = c.addUniqueBehavior b) := by
  have hhas : ∀ (d : Character) (n : String),
      d.hasBehavior n = true ↔ ∃ x ∈ d.behaviors, x.name = n := by
    intro d n
    simp [Character.hasBehavior]
  have hfirst : (∃ x ∈ c.behaviors, x.name = b.name) → c.addUniqueBehavior b = c := by
    intro h
    simp [Character.addUniqueBehavior, (hhas c b.name).2 h]
  have hsecond : (¬ ∃ x ∈ c.behaviors, x.name = b.name) →
      c.addUniqueBehavior b = c.addBehavior b := by
    intro h
    have : c.hasBehavior b.name = false := by
      rw [Bool.eq_false_iff]
      exact fun h2 => h ((hhas c b.name).1 h2)
    simp [Character.addUniqueBehavior, this]
  refine ⟨hfirst, ?_, ?_⟩
  · intro h
    rw [hsecond h]
    exact ⟨rfl, sortByPriority_perm _⟩
  · intro b2 hname
    have hpresent : ∃ x ∈ (c.addUniqueBehavior b).behaviors, x.name = b2.name := by
      by_cases h : ∃ x ∈ c.behaviors, x.name = b.name
      · rw [hfirst h, hname]
        exact h
      · rw [hsecond h]
        refine ⟨b, ?_, hname.symm⟩
        exact (sortByPriority_perm _).mem_iff.2 (by simp)
    generalize c.addUniqueBehavior b = d at hpresent ⊢
    simp [Character.addUniqueBehavior, (hhas d b2.name).2 hpresent]

/-- The character that the hooks receive: the first hook invoked gets the character
as it is at the call, every later hook gets it as the hook before left it, and
the value recorded for a hook is what it returned on the character it got. -/
theorem eachBehavior_threads {σ : Type} (hookOf : Hooks σ) (action : String)
    (args : List JSVal) (bs : List Behavior) (c : Character) (w : σ) :
    (∀ first, (eachBehavior hookOf action args bs c w).calls.head? = some first →
      first.self = c) ∧
    (∀ call ∈ (eachBehavior hookOf action args bs c w).calls,
      ∃ hook w1, hookOf call.behavior action = some hook ∧
        call.ret = (hook call.self args w1).ret) ∧
    List.Chain' (fun a b => ∃ hook w1, hookOf a.behavior action = some hook ∧
        b.self = (hook a.self args w1).self)
      (eachBehavior hookOf action args bs c w).calls := by
  induction bs generalizing c w with
  | nil => simp [eachBehavior]
  | cons b bs ih =>
    cases hb : hookOf b action with
    | none =>
      simp only [eachBehavior, hb]
      exact ih c w
    | some hook =>
      by_cases hret : (hook c args w).ret = JSVal.bool false
      · simp only [eachBehavior, hb, hret, if_true]
        refine ⟨?_, ?_, ?_⟩
        · intro first hfirst
          simp only [List.head?_cons, Option.some.injEq] at hfirst
          rw [← hfirst]
        · intro call hcall
          simp only [List.mem_singleton] at hcall
          subst hcall
          exact ⟨hook, w, hb, hret.symm⟩
        · exact List.chain'_singleton _
      · obtain ⟨h1, h2, h3⟩ := ih (hook c args w).self (hook c args w).world
        simp only [eachBehavior, hb, hret, if_false]
        refine ⟨?_, ?_, ?_⟩
        · intro first hfirst
          simp only [List.head?_cons, Option.some.injEq] at hfirst
          rw [← hfirst]
        · intro call hcall
          rcases List.mem_cons.1 hcall with hc | hc
          · subst hc
            exact ⟨hook, w, hb, rfl⟩
          · exact h2 call hc
        · rw [List.chain'_cons']
          refine ⟨?_, h3⟩
          intro y hy
          exact ⟨hook, w, hb, h1 y hy⟩

/-- C6. Behavior chain order and cancellation. For every character whose behaviors
list is one that construction and calls of the mutators leave, whatever the
rest of its state, and whose behaviors have distinct priorities,
`doBehavior(event, args)` invokes hooks in strictly ascending priority, each
with the character and the given `args`: the first hook gets the character as
it is at the call, every later one gets it as the hook before left it. The
behaviors invoked are a prefix of the behaviors that have a hook for the
event, every invocation but the last returned something other than `false`,
and the prefix is a proper one only if the last invocation returned `false`.
With three behaviors of priorities `p1 < p2 < p3`, the first never returning
`false` and the second always returning `false`, the hooks of the first and
the second run, in that order, and no other. -/
theorem doBehavior_order_and_cancel {σ : Type} (hookOf : Hooks σ) (opts : Opts)
    (race : Race) (prof : Profession) (calls : List MethodCall) (c : Character)
    (hlist : c.behaviors
      = (runMethodCalls (Character.create opts race prof) calls).behaviors)
    (hdistinct : (c.behaviors.map Behavior.priority).Nodup)
    (action : String) (args : List JSVal) (w : σ) :
    ((c.doBehavior hookOf action args w).calls.map
      (fun call => call.behavior.priority)).Sorted (fun p q => p < q) ∧
    (∀ call ∈ (c.doBehavior hookOf action args w).calls, call.args = args) ∧
    ((∀ first, (c.doBehavior hookOf action args w).calls.head? = some first →
        first.self = c) ∧
      (∀ call ∈ (c.doBehavior hookOf action args w).calls,
        ∃ hook w1, hookOf call.behavior action = some hook ∧
          call.ret = (hook call.self args w1).ret) ∧
      List.Chain' (fun a b => ∃ hook w1, hookOf a.behavior action = some hook ∧
          b.self = (hook a.self args w1).self)
        (c.doBehavior hookOf action args w).calls) ∧
    (∃ rest,
      c.behaviors.filter (fun b => (hookOf b action).isSome)
        = (c.doBehavior hookOf action args w).calls.map Call.behavior ++ rest ∧
      (∀ call ∈ (c.doBehavior hookOf action args w).calls.dropLast,
        call.ret ≠ JSVal.bool false) ∧
      (rest ≠ [] → ∃ last,
        (c.doBehavior hookOf action args w).calls.getLast? = some last ∧
        last.ret = JSVal.bool false)) ∧
    (∀ (b1 b2 b3 : Behavior) (h1 h2 : Hook σ),
      c.behaviors.Perm [b1, b2, b3] →
      b1.priority < b2.priority → b2.priority < b3.priority →
      hookOf b1 action = some h1 → hookOf b2 action = some h2 →
      (∀ c1 w1, (h1 c1 args w1).ret ≠ JSVal.bool false) →
      (∀ c2 w2, (h2 c2 args w2).ret = JSVal.bool false) →
      (c.doBehavior hookOf action args w).calls.map Call.behavior = [b1, b2]) := by
  have hsorted : c.behaviors.Sorted Behavior.lt := by
    apply sorted_lt_of_sorted_le_of_nodup _ _ hdistinct
    rw [hlist]
    exact runMethodCalls_sorted calls _ (create_sorted opts race prof)
  obtain ⟨rest, h1, h2, h3, h4⟩ := eachBehavior_spec hookOf action args c.behaviors c w
  refine ⟨?_, h4, eachBehavior_threads hookOf action args c.behaviors c w,
    ⟨rest, h1, h2, h3⟩, ?_⟩
  · have hsub : ((c.doBehavior hookOf action args w).calls.map Call.behavior).Sublist
        c.behaviors := by
      have hpre : ((c.doBehavior hookOf action args w).calls.map Call.behavior).Sublist
          (c.behaviors.filter (fun b => (hookOf b action).isSome)) := by
        unfold Character.doBehavior
        rw [h1]
        exact List.sublist_append_left _ _
      exact hpre.trans (List.filter_sublist _)
    have hlt := List.Pairwise.sublist hsub hsorted
    unfold List.Sorted
    rw [List.pairwise_map] at hlt ⊢
    exact hlt
  · intro b1 b2 b3 g1 g2 hperm h12 h23 hg1 hg2 hn1 hf2
    have h13 : b1.priority < b3.priority := lt_trans h12 h23
    have htarget : [b1, b2, b3].Sorted Behavior.lt := by
      simp [List.Sorted, Behavior.lt, h12, h23, h13]
    have heq : c.behaviors = [b1, b2, b3] :=
      List.eq_of_perm_of_sorted hperm hsorted htarget
    simp [Character.doBehavior, heq, eachBehavior, hg1, hg2, hn1, hf2]

/-- Witness of C6: a wounded character in its 7th turn whose three behaviors, of
priorities 1, 2, 3, were given to the constructor out of order; every hook
adds a gold piece and the middle one returns `false`. The first hook gets the
character with no gold, the second gets it with one piece. -/
theorem doBehavior_order_and_cancel_witness :
    ({ sampleActor with currentTurn := 7, hp := { min := 0, cur := 3, max := 15 } } :
      Character).behaviors = (runMethodCalls sampleActor []).behaviors ∧
    (sampleActor.behaviors.map Behavior.priority).Nodup ∧
    sampleActor.behaviors.Perm [wanders, guards, strikes] ∧
    (({ sampleActor with currentTurn := 7, hp := { min := 0, cur := 3, max := 15 } } :
        Character).doBehavior payingHooks "act" [] 0).calls
      = [{ behavior := wanders
           self := { sampleActor with currentTurn := 7,
                                      hp := { min := 0, cur := 3, max := 15 } }
           args := [], ret := JSVal.undefined },
         { behavior := guards
           self := { sampleActor with currentTurn := 7, gold := 1,
                                      hp := { min := 0, cur := 3, max := 15 } }
           args := [], ret := JSVal.bool false }] ∧
    (({ sampleActor with currentTurn := 7, hp := { min := 0, cur := 3, max := 15 } } :
        Character).doBehavior payingHooks "act" [] 0).calls.map Call.behavior
      = [wanders, guards] :=
  ⟨rfl, by decide, by decide, by decide,
    (doBehavior_order_and_cancel payingHooks
      { behaviors := [strikes, wanders, guards] } sampleRace {} []
      { sampleActor with currentTurn := 7, hp := { min := 0, cur := 3, max := 15 } } rfl
      (by decide) "act" [] 0).2.2.2.2 wanders guards strikes _ _ (by decide)
      (by decide) (by decide) rfl rfl
      (by intro c1 w1; simp [wanders])
      (by intro c2 w2; simp [guards])⟩

/-- C7 as stated fails: the hook of the middle behavior returns a falsy value that
is not `false` (`undefined`, `0`, `null`, the empty string), and the hook of
the later behavior is invoked all the same. -/
theorem falsy_return_does_not_abort :
    (JSVal.undefined.falsy = true ∧
      (sampleActor.doBehavior (sampleHooks JSVal.undefined) "act" [] 0).calls.map
        Call.behavior = [wanders, guards, strikes]) ∧
    ((JSVal.num 0).falsy = true ∧
      (sampleActor.doBehavior (sampleHooks (JSVal.num 0)) "act" [] 0).calls.map
        Call.behavior = [wanders, guards, strikes]) ∧
    (JSVal.null.falsy = true ∧
      (sampleActor.doBehavior (sampleHooks JSVal.null) "act" [] 0).calls.map
        Call.behavior = [wanders, guards, strikes]) ∧
    ((JSVal.str "").falsy = true ∧
      (sampleActor.doBehavior (sampleHooks (JSVal.str "")) "act" [] 0).calls.map
        Call.behavior = [wanders, guards, strikes]) := by
  decide

/-- C7, amended. In `doBehavior(event, args)` a hook that returns exactly `false`
aborts the remaining chain: no hook is invoked after it. A hook that returns
any other value, a falsy one included, does not: when no invoked hook returns
`false`, every behavior that has a hook for the event is invoked, in list
order. -/
theorem only_false_aborts {σ : Type} (hookOf : Hooks σ) (c : Character)
    (action : String) (args : List JSVal) (w : σ) :
    (∀ (before after : List Call) (call : Call),
      (c.doBehavior hookOf action args w).calls = before ++ call :: after →
      call.ret = JSVal.bool false → after = []) ∧
    ((∀ call ∈ (c.doBehavior hookOf action args w).calls, call.ret ≠ JSVal.bool false) →
      (c.doBehavior hookOf action args w).calls.map Call.behavior
        = c.behaviors.filter (fun b => (hookOf b action).isSome)) := by
  obtain ⟨rest, h1, h2, h3, _⟩ := eachBehavior_spec hookOf action args c.behaviors c w
  constructor
  · intro before after call hcalls hfalse
    by_contra hne
    apply h2 call _ hfalse
    unfold Character.doBehavior at hcalls
    rw [hcalls, List.dropLast_append_of_ne_nil _ (List.cons_ne_nil _ _)]
    obtain ⟨x, xs, rfl⟩ := List.exists_cons_of_ne_nil hne
    simp
  · intro hall
    have hrest : rest = [] := by
      by_contra hne
      obtain ⟨last, hl, hf⟩ := h3 hne
      exact hall last (List.mem_of_getLast?_eq_some hl) hf
    unfold Character.doBehavior at hall ⊢
    rw [h1, hrest, List.append_nil]

/-- Witness of C7 (amended): the middle hook returns `undefined`, and all three
hooks run. -/
theorem only_false_aborts_witness :
    (∀ call ∈ (sampleActor.doBehavior (sampleHooks JSVal.undefined) "act" [] 0).calls,
      call.ret ≠ JSVal.bool false) ∧
    (sampleActor.doBehavior (sampleHooks JSVal.undefined) "act" [] 0).calls.map
        Call.behavior
      = sampleActor.behaviors.filter
          (fun b => (sampleHooks JSVal.undefined b "act").isSome) :=
  ⟨by decide,
    (only_false_aborts (sampleHooks JSVal.undefined) sampleActor "act" [] 0).2 (by decide)⟩

/-- Witness of C9: adding a second behavior named `Guards` changes nothing. -/
theorem addUniqueBehavior_once_witness :
    (∃ x ∈ sampleActor.behaviors, x.name = guards.name) ∧
    sampleActor.addUniqueBehavior { guards with id := 9, priority := 0 } = sampleActor :=
  ⟨⟨guards, by decide, rfl⟩,
    (addUniqueBehavior_once sampleActor { guards with id := 9, priority := 0 }).1
      ⟨guards, by decide, rfl⟩⟩

/-! ## Attacks: the claims -/

/-- C10 as stated fails: a character with no innate attacks, no equipped items and
an empty inventory, for whom the default fist attack is not usable, gets no
attack at all from `getAttacks()`. -/
theorem unusable_fist_gives_no_attack :
    sampleCharacter.attacks = [] ∧ sampleCharacter.equipment = [] ∧
    sampleCharacter.inventory = [] ∧
    sampleCharacter.getAttacks (fun _ => true) (fun _ => false) 0 = some [] := by
  decide

/-- C10, amended. For a character with no innate attacks, no equipped items and an
empty inventory, `getAttacks()` returns the list of exactly the default fist
attack with damage die "1d4" when that attack is usable by the character, and
the empty list when it is not. -/
theorem getAttacks_fallback (itemCanUse : Item → Bool) (atkCanUse : Attack → Bool)
    (rnd : Nat) (c : Character) (hattacks : c.attacks = [])
    (hworn : ∀ p ∈ c.equipment, p.2 = []) (hinv : c.inventory = []) :
    (Attacks.Fist "1d4").roll = "1d4" ∧
    (atkCanUse (Attacks.Fist "1d4") = true →
      c.getAttacks itemCanUse atkCanUse rnd = some [Attacks.Fist "1d4"]) ∧
    (atkCanUse (Attacks.Fist "1d4") = false →
      c.getAttacks itemCanUse atkCanUse rnd = some []) := by
  have hflat : (c.equipment.map Prod.snd).flatten = [] := by
    rw [List.flatten_eq_nil_iff]
    intro l hl
    obtain ⟨p, hp, rfl⟩ := List.mem_map.1 hl
    exact hworn p hp
  refine ⟨rfl, ?_, ?_⟩
  · intro h
    simp [Character.getAttacks, hattacks, hflat, hinv, itemAttacks, carriedItems, h]
  · intro h
    simp [Character.getAttacks, hattacks, hflat, hinv, itemAttacks, carriedItems, h, sample]

/-- Witness of C10 (amended): a fresh character for whom every attack is usable. -/
theorem getAttacks_fallback_witness :
    sampleCharacter.attacks = [] ∧ (∀ p ∈ sampleCharacter.equipment, p.2 = []) ∧
    sampleCharacter.inventory = [] ∧
    sampleCharacter.getAttacks (fun _ => true) (fun _ => true) 0
      = some [Attacks.Fist "1d4"] :=
  ⟨rfl, by decide, rfl,
    (getAttacks_fallback (fun _ => true) (fun _ => true) 0 sampleCharacter rfl
      (by decide) rfl).2.1 rfl⟩

/-! ## Lemmas on the attacks -/

theorem carriedItems_map_some (items : List Item) :
    carriedItems (items.map some) = some items := by
  induction items with
  | nil => rfl
  | cons i items ih => simp [carriedItems, ih]

theorem sample_eq_none_iff {α : Type} (xs : List α) (rnd : Nat) :
    sample xs rnd = none ↔ xs = [] := by
  unfold sample
  constructor
  · intro h
    by_contra hne
    have hpos : 0 < xs.length := List.length_pos.2 hne
    have hlt : rnd % xs.length < xs.length := Nat.mod_lt _ hpos
    rw [List.getElem?_eq_getElem hlt] at h
    cases h
  · intro h
    simp [h]

theorem sample_mem {α : Type} (xs : List α) (rnd : Nat) (a : α)
    (h : sample xs rnd = some a) : a ∈ xs := by
  unfold sample at h
  exact List.mem_iff_getElem?.2 ⟨_, h⟩

theorem mem_itemAttacks (itemCanUse : Item → Bool) (items : List Item) (a : Attack) :
    a ∈ itemAttacks itemCanUse items ↔
      ∃ item ∈ items, itemCanUse item = true ∧ a ∈ item.attacks := by
  simp only [itemAttacks, List.mem_flatten, List.mem_map, List.mem_filter]
  constructor
  · rintro ⟨l, ⟨item, ⟨hmem, huse⟩, rfl⟩, ha⟩
    exact ⟨item, hmem, huse, ha⟩
  · rintro ⟨item, hmem, huse, ha⟩
    exact ⟨item.attacks, ⟨item, ⟨hmem, huse⟩, rfl⟩, ha⟩

theorem combinedAttacks_ne_nil (itemCanUse : Item → Bool) (c : Character) :
    combinedAttacks itemCanUse c ≠ [] := by
  unfold combinedAttacks
  split
  · simp
  · rename_i h
    intro hnil
    exact h (by rw [hnil]; rfl)

theorem getAttacks_eq (itemCanUse : Item → Bool) (atkCanUse : Attack → Bool) (rnd : Nat)
    (c : Character) (carried : List Item) (hinv : c.inventory = carried.map some)
    (first : Attack) (hfirst : (combinedAttacks itemCanUse c).head? = some first) :
    c.getAttacks itemCanUse atkCanUse rnd
      = if atkCanUse first then some (combinedAttacks itemCanUse c)
        else some (sample ((itemAttacks itemCanUse carried).filter
              (fun atk => atkCanUse atk)) rnd).toList := by
  unfold combinedAttacks at hfirst
  simp only [Character.getAttacks, combinedAttacks, hinv, carriedItems_map_some, hfirst]

/-! ## Attacks and factions: further claims -/

/-- C11. Melee-versus-ranged policy of `getAttacks()`, for an inventory whose entries
are items. Let `L` be the innate attacks followed by the attacks of the usable
equipped items, or the single default fist when there is none; `L` is not
empty. If the first attack of `L` is usable by the character, the result is
`L`. Otherwise the result has at most one element; an element of it is a
usable attack of a usable item of the inventory; and it is empty iff the
inventory has no usable item with a usable attack. -/
theorem getAttacks_policy (itemCanUse : Item → Bool) (atkCanUse : Attack → Bool)
    (rnd : Nat) (c : Character) (carried : List Item)
    (hinv : c.inventory = carried.map some) :
    ∃ first, (combinedAttacks itemCanUse c).head? = some first ∧
      (atkCanUse first = true →
        c.getAttacks itemCanUse atkCanUse rnd = some (combinedAttacks itemCanUse c)) ∧
      (atkCanUse first = false →
        ∃ r, c.getAttacks itemCanUse atkCanUse rnd = some r ∧ r.length ≤ 1 ∧
          (∀ a ∈ r, atkCanUse a = true ∧
            ∃ item, some item ∈ c.inventory ∧ itemCanUse item = true ∧ a ∈ item.attacks) ∧
          (r = [] ↔ ¬ ∃ item, some item ∈ c.inventory ∧ itemCanUse item = true ∧
            ∃ a ∈ item.attacks, atkCanUse a = true)) := by
  have hmem : ∀ item : Item, some item ∈ c.inventory ↔ item ∈ carried := by
    intro item
    simp [hinv]
  cases hhead : (combinedAttacks itemCanUse c).head? with
  | none =>
    exact absurd (List.head?_eq_none_iff.1 hhead) (combinedAttacks_ne_nil itemCanUse c)
  | some first =>
    refine ⟨first, rfl, ?_, ?_⟩
    · intro huse
      rw [getAttacks_eq itemCanUse atkCanUse rnd c carried hinv first hhead]
      simp [huse]
    · intro huse
      rw [getAttacks_eq itemCanUse atkCanUse rnd c carried hinv first hhead]
      simp only [huse, Bool.false_eq_true, if_false]
      refine ⟨_, rfl, ?_, ?_, ?_⟩
      · cases sample ((itemAttacks itemCanUse carried).filter
            (fun atk => atkCanUse atk)) rnd <;> simp
      · intro a ha
        rw [Option.mem_toList] at ha
        have hin := sample_mem _ _ _ ha
        rw [List.mem_filter, mem_itemAttacks] at hin
        obtain ⟨⟨item, hitem, hiuse, hattack⟩, hause⟩ := hin
        exact ⟨hause, item, (hmem item).2 hitem, hiuse, hattack⟩
      · have htl : ∀ o : Option Attack, o.toList = [] ↔ o = none := by
          intro o
          cases o <;> simp
        rw [htl, sample_eq_none_iff, List.filter_eq_nil_iff]
        constructor
        · rintro hnone ⟨item, hitem, hiuse, a, hattack, hause⟩
          exact hnone a ((mem_itemAttacks _ _ _).2 ⟨item, (hmem item).1 hitem, hiuse, hattack⟩)
            hause
        · intro hnone a ha hause
          obtain ⟨item, hitem, hiuse, hattack⟩ := (mem_itemAttacks _ _ _).1 ha
          exact hnone ⟨item, (hmem item).2 hitem, hiuse, a, hattack, hause⟩

/-- Witness of C11: the fist is not usable, the shot of the carried bow is. -/
theorem getAttacks_policy_witness :
    archer.inventory = [shortBow].map some ∧
    archer.getAttacks (fun _ => true) (fun atk => decide (atk.name ≠ "Fist")) 0
      = some [{ name := "Shot", roll := "1d6" }] ∧
    ∃ first, (combinedAttacks (fun _ => true) archer).head? = some first ∧
      (decide (first.name ≠ "Fist") = true →
        archer.getAttacks (fun _ => true) (fun atk => decide (atk.name ≠ "Fist")) 0
          = some (combinedAttacks (fun _ => true) archer)) ∧
      (decide (first.name ≠ "Fist") = false →
        ∃ r, archer.getAttacks (fun _ => true) (fun atk => decide (atk.name ≠ "Fist")) 0
            = some r ∧ r.length ≤ 1 ∧
          (∀ a ∈ r, decide (a.name ≠ "Fist") = true ∧
            ∃ item, some item ∈ archer.inventory ∧ (fun _ => true) item = true ∧
              a ∈ item.attacks) ∧
          (r = [] ↔ ¬ ∃ item, some item ∈ archer.inventory ∧ (fun _ => true) item = true ∧
            ∃ a ∈ item.attacks, decide (a.name ≠ "Fist") = true)) :=
  ⟨rfl, by decide,
    getAttacks_policy (fun _ => true) (fun atk => decide (atk.name ≠ "Fist")) 0 archer
      [shortBow] rfl⟩

theorem mem_uniq (x : String) (l : List String) : x ∈ uniq l ↔ x ∈ l := by
  induction l with
  | nil => simp [uniq]
  | cons y ys ih =>
    simp only [uniq, List.mem_cons, List.mem_filter, ih, decide_eq_true_eq]
    constructor
    · rintro (h | ⟨h, _⟩)
      · exact Or.inl h
      · exact Or.inr h
    · rintro (h | h)
      · exact Or.inl h
      · by_cases hxy : x = y
        · exact Or.inl hxy
        · exact Or.inr ⟨h, hxy⟩

theorem mem_intersection (x : String) (a b : List String) :
    x ∈ intersection a b ↔ x ∈ a ∧ x ∈ b := by
  simp [intersection, mem_uniq, List.mem_filter]

/-- C12. The result of `canAttack(other)` is true iff some faction of `other` is among
the anti-factions of the character, and it does not depend on the factions of
the character itself: characters with the same anti-factions give the same
answer for every other. -/
theorem canAttack_iff (c other : Character) :
    (c.canAttack other = true ↔ ∃ f, f ∈ other.factions ∧ f ∈ c.antiFactions) ∧
    (∀ c2 : Character, c2.antiFactions = c.antiFactions →
      c2.canAttack other = c.canAttack other) := by
  constructor
  · simp only [Character.canAttack, decide_eq_true_eq, List.length_pos]
    constructor
    · intro h
      obtain ⟨f, hf⟩ := List.exists_mem_of_ne_nil _ h
      exact ⟨f, (mem_intersection f _ _).1 hf⟩
    · rintro ⟨f, hf⟩
      exact List.ne_nil_of_mem ((mem_intersection f _ _).2 hf)
  · intro c2 h
    simp [Character.canAttack, h]

/-- Witness of C12: the orc hunter can attack the orc, and so can the same character
given any other factions of its own. -/
theorem canAttack_iff_witness :
    ({ orcHunter with factions := ["orc"] } : Character).antiFactions
      = orcHunter.antiFactions ∧
    orcHunter.canAttack orc = true ∧
    ({ orcHunter with factions := ["orc"] } : Character).canAttack orc
      = orcHunter.canAttack orc :=
  ⟨rfl, by decide, (canAttack_iff orcHunter orc).2 _ rfl⟩

/-! ## Progression: the claims -/

/-- C13. Level-up postcondition: for every character, every `professionInst.levelup`
and every outcome of the dice, after `levelup()` the level is the old level
plus one, `xp.cur` is 0, `xp.max` is `10 * 2^level` for the new level,
`hp.cur = hp.max` and `mp.cur = mp.max`. -/
theorem levelup_postcondition (professionLevelup : Profession → Profession)
    (dice : Dice) (c : Character) :
    (c.levelup professionLevelup dice).level = c.level + 1 ∧
    (c.levelup professionLevelup dice).xp.cur = 0 ∧
    (c.levelup professionLevelup dice).xp.max
      = 10 * 2 ^ (c.levelup professionLevelup dice).level ∧
    (c.levelup professionLevelup dice).hp.cur = (c.levelup professionLevelup dice).hp.max ∧
    (c.levelup professionLevelup dice).mp.cur = (c.levelup professionLevelup dice).mp.max :=
  ⟨rfl, rfl, rfl, rfl, rfl⟩

theorem gainXp_of_atMax (professionLevelup : Profession → Profession) (dice : Dice)
    (c : Character) (number : Nat) (h : (c.xp.add number).atMax = true) :
    c.gainXp professionLevelup dice number
      = ({ c with xp := c.xp.add number }).levelup professionLevelup dice := by
  simp [Character.gainXp, h]

theorem gainXp_of_not_atMax (professionLevelup : Profession → Profession) (dice : Dice)
    (c : Character) (number : Nat) (h : (c.xp.add number).atMax = false) :
    c.gainXp professionLevelup dice number = { c with xp := c.xp.add number } := by
  simp [Character.gainXp, h]

/-- C14. XP-driven level-up: for a character at level `L` with `xp.cur = 0` and
`xp.max = 10 * 2^L`, `gainXp(xp.max)` runs `levelup()` once, on the character
with the pool filled: afterwards the level is `L + 1`, `xp.max` is
`10 * 2^(L+1)` and `xp.cur` is 0. And `gainXp(n)` with `xp.cur + n < xp.max`
only adds `n` to `xp.cur`: no level-up, level and `xp.max` as before. -/
theorem gainXp_levels_once (professionLevelup : Profession → Profession) (dice : Dice)
    (c : Character) (hcur : c.xp.cur = 0) (_hmax : c.xp.max = 10 * 2 ^ c.level) :
    (∀ n : Nat, (n : Int) = c.xp.max →
      c.gainXp professionLevelup dice n
        = ({ c with xp := { c.xp with cur := c.xp.max } }).levelup professionLevelup dice ∧
      (c.gainXp professionLevelup dice n).level = c.level + 1 ∧
      (c.gainXp professionLevelup dice n).xp.max = 10 * 2 ^ (c.level + 1) ∧
      (c.gainXp professionLevelup dice n).xp.cur = 0) ∧
    (∀ n : Nat, c.xp.cur + n < c.xp.max →
      c.gainXp professionLevelup dice n
        = { c with xp := { c.xp with cur := c.xp.cur + n } } ∧
      (c.gainXp professionLevelup dice n).level = c.level ∧
      (c.gainXp professionLevelup dice n).xp.max = c.xp.max) := by
  constructor
  · intro n hn
    have hadd : c.xp.add n = { c.xp with cur := c.xp.max } := by
      simp [NumberRange.add, hcur, hn]
    have hat : (c.xp.add n).atMax = true := by
      rw [hadd]
      simp [NumberRange.atMax]
    rw [gainXp_of_atMax professionLevelup dice c n hat, hadd]
    exact ⟨rfl, rfl, rfl, rfl⟩
  · intro n hn
    have hadd : c.xp.add n = { c.xp with cur := c.xp.cur + n } := by
      simp [NumberRange.add, le_of_lt hn]
    have hat : (c.xp.add n).atMax = false := by
      rw [hadd]
      simp only [NumberRange.atMax, decide_eq_false_iff_not]
      exact ne_of_lt hn
    rw [gainXp_of_not_atMax professionLevelup dice c n hat, hadd]
    exact ⟨rfl, rfl, rfl⟩

/-- Witness of C14: at level 1 with `xp.max = 20`, gaining 20 gives level 2 and
`xp.max = 40`. -/
theorem gainXp_levels_once_witness :
    novice.xp.cur = 0 ∧ novice.xp.max = 10 * 2 ^ novice.level ∧
    ((20 : Nat) : Int) = novice.xp.max ∧
    (novice.gainXp id lowRolls 20).level = 2 ∧
    (novice.gainXp id lowRolls 20).xp.max = 40 ∧
    (novice.gainXp id lowRolls 20).xp.cur = 0 :=
  ⟨rfl, by decide, by decide,
    ((gainXp_levels_once id lowRolls novice rfl (by decide)).1 20 (by decide)).2⟩

theorem eachBehavior_preserves {σ : Type} (P : Character → Prop) (hookOf : Hooks σ)
    (action : String) (args : List JSVal)
    (hP : ∀ b hook, hookOf b action = some hook →
      ∀ c w, P c → P (hook c args w).self)
    (bs : List Behavior) (c : Character) (w : σ) (hc : P c) :
    P (eachBehavior hookOf action args bs c w).self := by
  induction bs generalizing c w with
  | nil => exact hc
  | cons b bs ih =>
    cases hb : hookOf b action with
    | none =>
      simp only [eachBehavior, hb]
      exact ih c w hc
    | some hook =>
      have hnext := hP b hook hb c w hc
      by_cases hret : (hook c args w).ret = JSVal.bool false
      · simp only [eachBehavior, hb, hret, if_true]
        exact hnext
      · simp only [eachBehavior, hb, hret, if_false]
        exact ih _ _ hnext

theorem add_bounded (r : NumberRange) (n : Nat) (h : r.Bounded) :
    (r.add n).min = r.min ∧ (r.add n).max = r.max ∧ (r.add n).Bounded := by
  unfold NumberRange.Bounded at h ⊢
  refine ⟨rfl, rfl, ?_⟩
  simp only [NumberRange.add]
  split <;> omega

theorem sub_bounded (r : NumberRange) (n : Nat) (h : r.Bounded) :
    (r.sub n).min = r.min ∧ (r.sub n).max = r.max ∧ (r.sub n).Bounded := by
  unfold NumberRange.Bounded at h ⊢
  refine ⟨rfl, rfl, ?_⟩
  simp only [NumberRange.sub]
  split <;> omega

theorem levelup_maxima (professionLevelup : Profession → Profession) (dice : Dice)
    (c : Character) :
    (c.levelup professionLevelup dice).hp.max
        = c.hp.max + (levelupBonuses professionLevelup dice c).1 ∧
    (c.levelup professionLevelup dice).mp.max
        = c.mp.max + (levelupBonuses professionLevelup dice c).2 :=
  ⟨rfl, rfl⟩

theorem levelupBonuses_xp (professionLevelup : Profession → Profession) (dice : Dice)
    (c : Character) (xp : NumberRange) :
    levelupBonuses professionLevelup dice { c with xp := xp }
      = levelupBonuses professionLevelup dice c := rfl

theorem levelup_bounded_iff (professionLevelup : Profession → Profession) (dice : Dice)
    (c : Character) (h : PoolsBounded c) :
    PoolsBounded (c.levelup professionLevelup dice)
      ↔ LevelupKeepsMaxima professionLevelup dice c := by
  obtain ⟨⟨h1, _⟩, ⟨h2, _⟩, ⟨h3, _⟩⟩ := h
  have e1 : (c.levelup professionLevelup dice).hp.min = c.hp.min := rfl
  have e2 : (c.levelup professionLevelup dice).mp.min = c.mp.min := rfl
  have e3 : (c.levelup professionLevelup dice).xp.min = c.xp.min := rfl
  have e4 : (c.levelup professionLevelup dice).hp.cur
      = (c.levelup professionLevelup dice).hp.max := rfl
  have e5 : (c.levelup professionLevelup dice).mp.cur
      = (c.levelup professionLevelup dice).mp.max := rfl
  have e6 : (c.levelup professionLevelup dice).xp.cur = 0 := rfl
  have e7 : (c.levelup professionLevelup dice).xp.max = 10 * 2 ^ (c.level + 1) := rfl
  have hpow : (0 : Int) ≤ 10 * 2 ^ (c.level + 1) := by positivity
  obtain ⟨m1, m2⟩ := levelup_maxima professionLevelup dice c
  unfold PoolsBounded NumberRange.Bounded LevelupKeepsMaxima
  rw [e1, e2, e3, e4, e5, e6, e7, h1, h2, h3, m1, m2]
  constructor
  · rintro ⟨⟨_, a, _⟩, ⟨_, b, _⟩, _⟩
    exact ⟨a, b⟩
  · rintro ⟨a, b⟩
    exact ⟨⟨rfl, a, le_refl _⟩, ⟨rfl, b, le_refl _⟩, ⟨rfl, le_refl _, hpow⟩⟩

theorem levelupBonuses_nonneg (professionLevelup : Profession → Profession)
    (dice : Dice) (c : Character) (hdice : ∀ k expr, 0 ≤ dice k expr)
    (hcon : ∀ k, 8 ≤ (({ c with professionInst := professionLevelup c.professionInst } :
      Character).getStat dice k "con").1)
    (hint : ∀ k, 8 ≤ (({ c with professionInst := professionLevelup c.professionInst } :
      Character).getStat dice k "int").1) :
    0 ≤ (levelupBonuses professionLevelup dice c).1 ∧
    0 ≤ (levelupBonuses professionLevelup dice c).2 := by
  have hfloor : ∀ s : Int, 8 ≤ s → 0 ≤ Int.fdiv s 2 - 4 := by
    intro s hs
    rw [Int.fdiv_eq_ediv s (by decide : (0 : Int) ≤ 2)]
    omega
  simp only [levelupBonuses, Character.calcLevelHpBonus, Character.calcLevelMpBonus,
    Character.calcStatBonus]
  constructor
  · have h1 := hdice 0 (professionLevelup c.professionInst).config.hp
    have h2 := hfloor _ (hcon 1)
    exact Int.add_nonneg h1 h2
  · have h1 := hdice
      (({ c with professionInst := professionLevelup c.professionInst } :
        Character).getStat dice (0 + 1) "con").2
      (professionLevelup c.professionInst).config.mp
    have h2 := hfloor _ (hint
      ((({ c with professionInst := professionLevelup c.professionInst } :
        Character).getStat dice (0 + 1) "con").2 + 1))
    exact Int.add_nonneg h1 h2

theorem xp_add_bounded (c : Character) (n : Nat) (h : PoolsBounded c) :
    PoolsBounded { c with xp := c.xp.add n } := by
  obtain ⟨h1, h2, h3, h4⟩ := h
  have := add_bounded c.xp n h4
  exact ⟨h1, h2, by rw [this.1]; exact h3, this.2.2⟩

theorem gainXp_bounded (professionLevelup : Profession → Profession) (dice : Dice)
    (c : Character) (n : Nat) (h : PoolsBounded c)
    (hkeep : LevelupKeepsMaxima professionLevelup dice c) :
    PoolsBounded (c.gainXp professionLevelup dice n) := by
  cases hat : (c.xp.add n).atMax with
  | false =>
    rw [gainXp_of_not_atMax professionLevelup dice c n hat]
    exact xp_add_bounded c n h
  | true =>
    rw [gainXp_of_atMax professionLevelup dice c n hat]
    exact (levelup_bounded_iff professionLevelup dice _ (xp_add_bounded c n h)).2 hkeep

theorem takeDamage_of_atMin (hookOf : Hooks Game)
    (professionLevelup : Profession → Profession) (dice : Dice) (c : Character)
    (damage : Nat) (attacker : Attacker) (g : Game)
    (h : (c.hp.sub damage).atMin = true) :
    c.takeDamage hookOf professionLevelup dice damage attacker g
      = ({ c with hp := c.hp.sub damage }).die hookOf professionLevelup dice attacker g := by
  simp [Character.takeDamage, h]

theorem takeDamage_of_not_atMin (hookOf : Hooks Game)
    (professionLevelup : Profession → Profession) (dice : Dice) (c : Character)
    (damage : Nat) (attacker : Attacker) (g : Game)
    (h : (c.hp.sub damage).atMin = false) :
    c.takeDamage hookOf professionLevelup dice damage attacker g
      = { self := { c with hp := c.hp.sub damage }
          attacker := match attacker with
            | .self => { c with hp := c.hp.sub damage }
            | .other killer => killer
          game := g
          killCalls := 0 } := by
  simp [Character.takeDamage, h]

theorem hp_sub_bounded (c : Character) (damage : Nat) (h : PoolsBounded c) :
    PoolsBounded { c with hp := c.hp.sub damage } := by
  obtain ⟨⟨h1, h2⟩, h3, h5⟩ := h
  have a1 := sub_bounded c.hp damage h2
  exact ⟨⟨by rw [a1.1]; exact h1, a1.2.2⟩, h3, h5⟩

/-- C15 as stated fails: the pools of `dullard` are within their bounds with
`min = 0`, and after `levelup()` with the least dice rolls the mana pool has
`cur = max = -1`, below `min = 0`: the bonus `0 + floor(7 / 2) - 4 = -1` is
added to `mp.max = 0`. -/
theorem levelup_breaks_pool_bounds :
    ((dullard.hp.min = 0 ∧ dullard.hp.min ≤ dullard.hp.cur ∧ dullard.hp.cur ≤ dullard.hp.max) ∧
     (dullard.mp.min = 0 ∧ dullard.mp.min ≤ dullard.mp.cur ∧ dullard.mp.cur ≤ dullard.mp.max) ∧
     (dullard.xp.min = 0 ∧ dullard.xp.min ≤ dullard.xp.cur ∧ dullard.xp.cur ≤ dullard.xp.max)) ∧
    (dullard.levelup id lowRolls).mp = { min := 0, cur := -1, max := -1 } ∧
    ¬ ((dullard.levelup id lowRolls).mp.min ≤ (dullard.levelup id lowRolls).mp.cur) ∧
    ¬ ((dullard.gainXp id lowRolls 20).mp.min ≤ (dullard.gainXp id lowRolls 20).mp.cur) := by
  decide

/-- C15, amended. For a character whose hp, mp and xp pools have `min = 0` and
`min ≤ cur ≤ max`, and behaviors whose hooks keep the pools so, for every
attribute values and dice outcomes: after `act`, after `takeDamage` by another
character, and after a `gainXp` that does not fill the xp pool, the three
pools still have `min ≤ cur ≤ max`; after `levelup` they do exactly when
`hp.max` and `mp.max` plus the level-up bonuses
`roll + floor(stat / 2) - 4` are not below 0; after any `gainXp` they do
under that condition; and after a `takeDamage` in which the character attacks
itself they do when that condition holds of the dying character, on whom
`kill` then runs `gainXp`. The condition holds whenever no dice roll is
negative and constitution and intelligence resolve to 8 or more. -/
theorem pools_bounded_preserved {σ : Type} (actHooks : Hooks σ) (hookOf : Hooks Game)
    (professionLevelup : Profession → Profession) (dice : Dice) (c : Character)
    (h : PoolsBounded c)
    (hact : ∀ b hook, actHooks b "act" = some hook →
      ∀ c1 w, PoolsBounded c1 → PoolsBounded (hook c1 [] w).self)
    (hhooks : ∀ b action hook, hookOf b action = some hook →
      ∀ c1 w, PoolsBounded c1 → PoolsBounded (hook c1 [] w).self) :
    (∀ w, PoolsBounded (c.act actHooks w).self) ∧
    (∀ damage killer g,
      PoolsBounded
        (c.takeDamage hookOf professionLevelup dice damage (.other killer) g).self) ∧
    (∀ damage g,
      ((c.hp.sub damage).atMin = true →
        LevelupKeepsMaxima professionLevelup dice
          (({ c with hp := c.hp.sub damage }).doBehavior hookOf "die" [] g).self) →
      PoolsBounded (c.takeDamage hookOf professionLevelup dice damage .self g).self) ∧
    (∀ n, (c.xp.add n).atMax = false →
      PoolsBounded (c.gainXp professionLevelup dice n)) ∧
    (∀ n, LevelupKeepsMaxima professionLevelup dice c →
      PoolsBounded (c.gainXp professionLevelup dice n)) ∧
    (PoolsBounded (c.levelup professionLevelup dice)
      ↔ LevelupKeepsMaxima professionLevelup dice c) ∧
    ((∀ k expr, 0 ≤ dice k expr) →
      (∀ k, 8 ≤ (({ c with professionInst := professionLevelup c.professionInst } :
        Character).getStat dice k "con").1) →
      (∀ k, 8 ≤ (({ c with professionInst := professionLevelup c.professionInst } :
        Character).getStat dice k "int").1) →
      PoolsBounded (c.levelup professionLevelup dice) ∧
      ∀ n, PoolsBounded (c.gainXp professionLevelup dice n)) := by
  have hdied : ∀ damage g, PoolsBounded
      (({ c with hp := c.hp.sub damage }).doBehavior hookOf "die" [] g).self := by
    intro damage g
    unfold Character.doBehavior
    exact eachBehavior_preserves PoolsBounded hookOf "die" []
      (fun b hook hb => hhooks b "die" hook hb) _ _ _ (hp_sub_bounded c damage h)
  refine ⟨?_, ?_, ?_, ?_, ?_, ?_, ?_⟩
  · intro w
    unfold Character.act Character.doBehavior
    apply eachBehavior_preserves PoolsBounded actHooks "act" [] hact
    obtain ⟨⟨h1, h2⟩, ⟨h3, h4⟩, h5⟩ := h
    have a1 := add_bounded c.hp 1 h2
    have a2 := add_bounded c.mp 1 h4
    split <;> split
    · exact ⟨⟨by rw [a1.1]; exact h1, a1.2.2⟩, ⟨by rw [a2.1]; exact h3, a2.2.2⟩, h5⟩
    · exact ⟨⟨by rw [a1.1]; exact h1, a1.2.2⟩, ⟨h3, h4⟩, h5⟩
    · exact ⟨⟨h1, h2⟩, ⟨by rw [a2.1]; exact h3, a2.2.2⟩, h5⟩
    · exact ⟨⟨h1, h2⟩, ⟨h3, h4⟩, h5⟩
  · intro damage killer g
    cases hat : (c.hp.sub damage).atMin with
    | true =>
      rw [takeDamage_of_atMin hookOf professionLevelup dice c damage _ g hat]
      exact hdied damage g
    | false =>
      rw [takeDamage_of_not_atMin hookOf professionLevelup dice c damage _ g hat]
      exact hp_sub_bounded c damage h
  · intro damage g hkeep
    cases hat : (c.hp.sub damage).atMin with
    | true =>
      rw [takeDamage_of_atMin hookOf professionLevelup dice c damage _ g hat]
      have hgain := gainXp_bounded professionLevelup dice _
        (({ c with hp := c.hp.sub damage }).doBehavior hookOf "die" [] g).self.killXp
        (hdied damage g) (hkeep hat)
      have hkilled : PoolsBounded
          ((({ c with hp := c.hp.sub damage }).doBehavior hookOf "die" [] g).self.kill
            hookOf professionLevelup dice
            (({ c with hp := c.hp.sub damage }).doBehavior hookOf "die" [] g).self
            (({ c with hp := c.hp.sub damage }).doBehavior hookOf "die" [] g).world).self := by
        unfold Character.kill Character.doBehavior
        exact eachBehavior_preserves PoolsBounded hookOf "kill" []
          (fun b hook hb => hhooks b "kill" hook hb) _ _ _ hgain
      exact hkilled
    | false =>
      rw [takeDamage_of_not_atMin hookOf professionLevelup dice c damage _ g hat]
      exact hp_sub_bounded c damage h
  · intro n hn
    rw [gainXp_of_not_atMax professionLevelup dice c n hn]
    exact xp_add_bounded c n h
  · intro n hkeep
    exact gainXp_bounded professionLevelup dice c n h hkeep
  · exact levelup_bounded_iff professionLevelup dice c h
  · intro hdice hcon hint
    have hb := levelupBonuses_nonneg professionLevelup dice c hdice hcon hint
    have hkeep : LevelupKeepsMaxima professionLevelup dice c := by
      obtain ⟨⟨h1, h2, h3⟩, ⟨h4, h5, h6⟩, _⟩ := h
      unfold LevelupKeepsMaxima
      constructor <;> omega
    exact ⟨(levelup_bounded_iff professionLevelup dice c h).2 hkeep,
      fun n => gainXp_bounded professionLevelup dice c n h hkeep⟩

/-- Witness of C15 (amended): `veteran`, wounded and in its 19th turn, takes a turn
in which its hit points regenerate and its behavior runs, and levels up with
constitution and intelligence 8. -/
theorem pools_bounded_preserved_witness :
    PoolsBounded veteran ∧
    (veteran.act (sampleHooks (JSVal.bool true)) 0).self.hp
      = { min := 0, cur := 11, max := 15 } ∧
    (veteran.act (sampleHooks (JSVal.bool true)) 0).calls.length = 1 ∧
    PoolsBounded (veteran.act (sampleHooks (JSVal.bool true)) 0).self ∧
    LevelupKeepsMaxima id lowRolls veteran ∧
    (veteran.levelup id lowRolls).hp = { min := 0, cur := 15, max := 15 } ∧
    PoolsBounded (veteran.levelup id lowRolls) :=
  have hv : PoolsBounded veteran := by
    unfold PoolsBounded NumberRange.Bounded
    decide
  have hk : LevelupKeepsMaxima id lowRolls veteran := by
    unfold LevelupKeepsMaxima
    decide
  have hthm := pools_bounded_preserved (sampleHooks (JSVal.bool true)) (fun _ _ => none)
    id lowRolls veteran hv
    (by
      intro b hook hb c1 w h1
      simp only [sampleHooks, if_true, Option.some.injEq] at hb
      subst hb
      exact h1)
    (by intro b action hook hb; cases hb)
  ⟨hv, by decide, by decide, hthm.1 0, hk, by decide, hthm.2.2.2.2.2.1.2 hk⟩

/-! ## Damage and death: the claims -/

/-- C16 as stated fails: `phoenix` has 15 hit points and a behavior whose `die` hook
refills them. After `takeDamage(15, orc)` its `hp.cur` is 15, above
`hp.min = 0`, and yet it has been removed from the scheduler and the world,
in both of which it was registered, and `kill` was invoked once. -/
theorem healing_die_hook_is_removed_alive :
    phoenix.hp.min < phoenix.hp.cur ∧
    phoenix.id ∈ sampleGame.scheduler ∧ phoenix.id ∈ sampleGame.world ∧
    (phoenix.takeDamage healingHooks id lowRolls 15 (.other orc) sampleGame).self.hp
      = { min := 0, cur := 15, max := 15 } ∧
    phoenix.id ∉
      (phoenix.takeDamage healingHooks id lowRolls 15 (.other orc) sampleGame).game.scheduler ∧
    phoenix.id ∉
      (phoenix.takeDamage healingHooks id lowRolls 15 (.other orc) sampleGame).game.world ∧
    (phoenix.takeDamage healingHooks id lowRolls 15 (.other orc) sampleGame).killCalls = 1 := by
  decide

/-- C16, amended. After `takeDamage(damage, attacker)`, the attacker being any
object, the character itself included: if `hp.cur` equals `hp.min` then the
character is in neither the scheduler nor the world and `kill` was invoked on
the attacker exactly once; if the damage leaves `hp.cur` above `hp.min`
(`hp.cur - damage > hp.min`), only `hp.cur` has changed: the character is
registered wherever it was and `kill` was not invoked. And for another
character as attacker and `die` hooks that leave the hp pool alone, a
character that was registered in both and whose `hp.cur` ends above `hp.min`
is still registered in both, and `kill` was not invoked. -/
theorem death_on_min_hp (hookOf : Hooks Game)
    (professionLevelup : Profession → Profession) (dice : Dice) (c : Character)
    (damage : Nat) (g : Game) :
    (∀ attacker : Attacker,
      (c.takeDamage hookOf professionLevelup dice damage attacker g).self.hp.cur
        = (c.takeDamage hookOf professionLevelup dice damage attacker g).self.hp.min →
      c.id ∉ (c.takeDamage hookOf professionLevelup dice damage attacker g).game.scheduler ∧
      c.id ∉ (c.takeDamage hookOf professionLevelup dice damage attacker g).game.world ∧
      (c.takeDamage hookOf professionLevelup dice damage attacker g).killCalls = 1) ∧
    (∀ attacker : Attacker, c.hp.min < c.hp.cur - (damage : Int) →
      (c.takeDamage hookOf professionLevelup dice damage attacker g).self
        = { c with hp := { c.hp with cur := c.hp.cur - (damage : Int) } } ∧
      (c.takeDamage hookOf professionLevelup dice damage attacker g).game = g ∧
      (c.takeDamage hookOf professionLevelup dice damage attacker g).killCalls = 0) ∧
    (∀ killer : Character,
      (∀ b hook, hookOf b "die" = some hook → ∀ c1 w, (hook c1 [] w).self.hp = c1.hp) →
      c.id ∈ g.scheduler → c.id ∈ g.world →
      (c.takeDamage hookOf professionLevelup dice damage (.other killer) g).self.hp.min
        < (c.takeDamage hookOf professionLevelup dice damage (.other killer) g).self.hp.cur →
      c.id ∈
        (c.takeDamage hookOf professionLevelup dice damage (.other killer) g).game.scheduler ∧
      c.id ∈
        (c.takeDamage hookOf professionLevelup dice damage (.other killer) g).game.world ∧
      (c.takeDamage hookOf professionLevelup dice damage (.other killer) g).killCalls = 0) := by
  refine ⟨?_, ?_, ?_⟩
  · intro attacker
    cases hat : (c.hp.sub damage).atMin with
    | true =>
      rw [takeDamage_of_atMin hookOf professionLevelup dice c damage attacker g hat]
      intro _
      cases attacker <;> simp [Character.die, Character.kill]
    | false =>
      rw [takeDamage_of_not_atMin hookOf professionLevelup dice c damage attacker g hat]
      intro hmin
      simp only [NumberRange.atMin, decide_eq_false_iff_not] at hat
      exact absurd hmin hat
  · intro attacker habove
    have hsub : c.hp.sub damage = { c.hp with cur := c.hp.cur - (damage : Int) } := by
      simp [NumberRange.sub, le_of_lt habove]
    have hat : (c.hp.sub damage).atMin = false := by
      rw [hsub]
      simp only [NumberRange.atMin, decide_eq_false_iff_not]
      exact fun h => absurd h (ne_of_gt habove)
    rw [takeDamage_of_not_atMin hookOf professionLevelup dice c damage attacker g hat, hsub]
    exact ⟨rfl, rfl, rfl⟩
  · intro killer hhooks hs hw
    cases hat : (c.hp.sub damage).atMin with
    | true =>
      rw [takeDamage_of_atMin hookOf professionLevelup dice c damage _ g hat]
      intro habove
      exfalso
      have hkeep : (eachBehavior hookOf "die" [] c.behaviors
          { c with hp := c.hp.sub damage } g).self.hp = c.hp.sub damage :=
        eachBehavior_preserves (fun x => x.hp = c.hp.sub damage) hookOf "die" []
          (fun b hook hb c1 w h1 => (hhooks b hook hb c1 w).trans h1) _ _ _ rfl
      simp only [Character.die, Character.doBehavior, hkeep] at habove
      simp only [NumberRange.atMin, decide_eq_true_eq] at hat
      omega
    | false =>
      rw [takeDamage_of_not_atMin hookOf professionLevelup dice c damage _ g hat]
      intro _
      exact ⟨hs, hw, rfl⟩

/-- Witness of C16 (amended): `novice` (entity 0) has 15 hit points; 15 damage by
the orc remove it from the scheduler and the world with one `kill`, 14 damage
leave it registered with one hit point. -/
theorem death_on_min_hp_witness :
    ((novice.takeDamage (fun _ _ => none) id lowRolls 15 (.other orc) sampleGame).self.hp.cur
        = (novice.takeDamage (fun _ _ => none) id lowRolls 15 (.other orc)
            sampleGame).self.hp.min) ∧
    (novice.id ∉ (novice.takeDamage (fun _ _ => none) id lowRolls 15 (.other orc)
        sampleGame).game.scheduler ∧
      novice.id ∉ (novice.takeDamage (fun _ _ => none) id lowRolls 15 (.other orc)
        sampleGame).game.world ∧
      (novice.takeDamage (fun _ _ => none) id lowRolls 15 (.other orc)
        sampleGame).killCalls = 1) ∧
    novice.hp.min < novice.hp.cur - ((14 : Nat) : Int) ∧
    ((novice.takeDamage (fun _ _ => none) id lowRolls 14 (.other orc) sampleGame).self
        = { novice with hp := { novice.hp with cur := novice.hp.cur - ((14 : Nat) : Int) } } ∧
      (novice.takeDamage (fun _ _ => none) id lowRolls 14 (.other orc) sampleGame).game
        = sampleGame ∧
      (novice.takeDamage (fun _ _ => none) id lowRolls 14 (.other orc)
        sampleGame).killCalls = 0) :=
  ⟨by decide,
    (death_on_min_hp (fun _ _ => none) id lowRolls novice 15 sampleGame).1 (.other orc)
      (by decide),
    by decide,
    (death_on_min_hp (fun _ _ => none) id lowRolls novice 14 sampleGame).2.1 (.other orc)
      (by decide)⟩

/-! ## Random walk: the claims -/

theorem compact_valid_nil (f : Tile → Bool) (k : Nat) (tiles : List Tile)
    (h : ∀ (i : Nat) (t : Tile), tiles[i]? = some t → f t = false) :
    compact ((tiles.enumFrom k).map
      (fun p => if f p.2 then some (p.1 + 1) else none)) = [] := by
  induction tiles generalizing k with
  | nil => rfl
  | cons t ts ih =>
    have ht : f t = false := h 0 t (by simp)
    have hts : ∀ (i : Nat) (u : Tile), ts[i]? = some u → f u = false :=
      fun i u hu => h (i + 1) u (by simpa using hu)
    have := ih (k + 1) hts
    simp only [compact] at this ⊢
    simp [List.enumFrom_cons, ht, this]

theorem compact_valid_single (f : Tile → Bool) (k : Nat) (tiles : List Tile)
    (j : Nat) (tile : Tile) (hj : tiles[j]? = some tile) (hf : f tile = true)
    (honly : ∀ (i : Nat) (t : Tile), tiles[i]? = some t → f t = true → i = j) :
    compact ((tiles.enumFrom k).map
      (fun p => if f p.2 then some (p.1 + 1) else none)) = [k + j + 1] := by
  induction tiles generalizing k j with
  | nil => simp at hj
  | cons t ts ih =>
    cases j with
    | zero =>
      have ht : t = tile := by simpa using hj
      subst ht
      have hts : ∀ (i : Nat) (u : Tile), ts[i]? = some u → f u = false := by
        intro i u hu
        cases hfu : f u with
        | false => rfl
        | true => exact absurd (honly (i + 1) u (by simpa using hu) hfu) (by omega)
      have := compact_valid_nil f (k + 1) ts hts
      simp only [compact] at this ⊢
      simp [List.enumFrom_cons, hf, this]
    | succ j =>
      have ht : f t = false := by
        cases hft : f t with
        | false => rfl
        | true => exact absurd (honly 0 t (by simp) hft) (by omega)
      have hj2 : ts[j]? = some tile := by simpa using hj
      have honly2 : ∀ (i : Nat) (u : Tile), ts[i]? = some u → f u = true → i = j := by
        intro i u hu hfu
        have := honly (i + 1) u (by simpa using hu) hfu
        omega
      have := ih (k + 1) j hj2 honly2
      simp only [compact] at this ⊢
      simp [List.enumFrom_cons, ht, this]
      omega

theorem sample_singleton {α : Type} (a : α) (rnd : Nat) : sample [a] rnd = some a := by
  simp [sample, Nat.mod_one]

/-- C17. Random walk, forced choice: for a character with no remembered heading, when
exactly one of the tiles the world returns is reported empty, `stepRandomly`
asks the world to move the character to that tile and remembers the index of
the tile as the heading, whatever the random source draws and whatever the
weights are. -/
theorem stepRandomly_forced (tiles : List Tile) (isTileEmpty : Tile → Bool)
    (c : Character) (hfresh : c.lastDirection = none)
    (j : Nat) (tile : Tile) (hj : tiles[j]? = some tile)
    (hempty : isTileEmpty tile = true)
    (honly : ∀ (i : Nat) (t : Tile), tiles[i]? = some t → isTileEmpty t = true → i = j)
    (calcProbs : Nat → Nat → Nat) (getWeightedValue : List (Nat × Nat) → Option Nat)
    (rnd : Nat) :
    c.stepRandomly tiles isTileEmpty calcProbs getWeightedValue rnd
      = { self := { c with lastDirection := some j }, moveEntity := some tile } := by
  have hvalid : compact (validTiles isTileEmpty tiles) = [j + 1] := by
    have := compact_valid_single isTileEmpty 0 tiles j tile hj hempty honly
    simpa [validTiles, List.enum] using this
  simp [Character.stepRandomly, hfresh, hvalid, sample_singleton, arrayIndex, hj]

/-- Witness of C17: in a corridor only the tile to the east (index 5) is empty. -/
theorem stepRandomly_forced_witness :
    ({} : Character).lastDirection = none ∧ neighbourhood[5]? = some ⟨1, 0, 0⟩ ∧
    corridorEast ⟨1, 0, 0⟩ = true ∧
    (∀ (i : Nat) (t : Tile), neighbourhood[i]? = some t → corridorEast t = true → i = 5) ∧
    ({} : Character).stepRandomly neighbourhood corridorEast straightOn (weightedDraw 3) 7
      = { self := { lastDirection := some 5 }, moveEntity := some ⟨1, 0, 0⟩ } :=
  have honly : ∀ (i : Nat) (t : Tile), neighbourhood[i]? = some t → corridorEast t = true → i = 5 := by
    intro i t hi ht
    have hlt : i < 9 := by
      by_contra hge
      have : neighbourhood[i]? = none := List.getElem?_eq_none (by simp [neighbourhood]; omega)
      rw [this] at hi
      cases hi
    have ht2 : t = ⟨1, 0, 0⟩ := by simpa [corridorEast] using ht
    subst ht2
    interval_cases i <;> first | rfl | (exfalso; revert hi; decide)
  ⟨rfl, rfl, by decide, honly,
    stepRandomly_forced neighbourhood corridorEast {} rfl 5 ⟨1, 0, 0⟩ rfl (by decide) honly
      straightOn (weightedDraw 3) 7⟩

/-- C18, at the failing input. A character whose remembered heading is 0 (it last moved
to the tile of index 0) stands on open floor. `stepRandomly` tests the heading
for truthiness, and 0 is falsy: the direction is the uniform sample, here the
tile of number 9 (index 8), which reverses the heading and has weight 0 in
the table for that heading, and the weighted draw, which gives index 0, is not
made. The result is the one for no heading at all; with the heading 1 the
weighted draw decides. -/
theorem heading_zero_is_not_weighted :
    (({ lastDirection := some 0 } : Character).stepRandomly neighbourhood openFloor
        straightOn (weightedDraw 1) 7)
      = { self := { lastDirection := some 8 }, moveEntity := some ⟨1, 1, 0⟩ } ∧
    straightOn (0 + 1) 9 = 0 ∧
    arrayIndex (weightedDraw 1 ((compact (validTiles openFloor neighbourhood)).map
      (fun tileIndex => (tileIndex, straightOn (0 + 1) tileIndex)))) = some 0 ∧
    (({ lastDirection := some 0 } : Character).stepRandomly neighbourhood openFloor
        straightOn (weightedDraw 1) 7).moveEntity
      = (({ lastDirection := none } : Character).stepRandomly neighbourhood openFloor
          straightOn (weightedDraw 1) 7).moveEntity ∧
    (({ lastDirection := some 1 } : Character).stepRandomly neighbourhood openFloor
        straightOn (weightedDraw 1) 7)
      = { self := { lastDirection := some 1 }, moveEntity := some ⟨0, -1, 0⟩ } := by
  decide

/-! ## Stats: the claims -/

/-- C19, at the failing input. The comment on `calcStatBonus` documents +1 for the
stats 9 and 10; for a character whose constitution resolves to 9 the method
returns `Math.floor(9 / 2) - 4 = 0`. The other documented entries hold: -2
for 4 and 5, -1 for 6 and 7, 0 for 8, +1 for 10. -/
theorem statBonus_of_nine_is_zero :
    ((withCon 9).getStat lowRolls 0 "con").1 = 9 ∧
    ((withCon 9).calcStatBonus lowRolls 0 "con").1 = 0 ∧
    ((withCon 4).calcStatBonus lowRolls 0 "con").1 = -2 ∧
    ((withCon 5).calcStatBonus lowRolls 0 "con").1 = -2 ∧
    ((withCon 6).calcStatBonus lowRolls 0 "con").1 = -1 ∧
    ((withCon 7).calcStatBonus lowRolls 0 "con").1 = -1 ∧
    ((withCon 8).calcStatBonus lowRolls 0 "con").1 = 0 ∧
    ((withCon 10).calcStatBonus lowRolls 0 "con").1 = 1 := by
  decide

/-! ## Equipment: the upgrade heuristic -/

/-- C20. The value-based upgrade heuristic never decides an equip: whenever
`canEquip(item)` is true, `shouldEquip(item)` is true, so `tryEquip(item)`
returns true iff `canEquip(item)` is true. -/
theorem canEquip_decides_tryEquip (c : Character) (item : Item) :
    (c.canEquip item = true → c.shouldEquip item = true) ∧
    ((c.tryEquip item).1 = true ↔ c.canEquip item = true) := by
  have hshould : c.canEquip item = true → c.shouldEquip item = true := by
    intro hcan
    have hcan2 := hcan
    unfold Character.canEquip at hcan2
    cases hslots : c.raceInst.slotsAt item.getParentType with
    | none => simp [hslots] at hcan2
    | some n =>
      simp only [hslots, decide_eq_true_eq] at hcan2
      have hpos : 0 < n := by omega
      simp [Character.shouldEquip, hslots, hpos, hcan]
  refine ⟨hshould, ?_⟩
  rw [tryEquip_eq]
  constructor
  · intro h
    cases hcan : c.canEquip item with
    | true => rfl
    | false => simp [hcan] at h
  · intro hcan
    simp [hcan, hshould hcan]

/-- Witness of C20: `leatherArmor` fits a fresh character and is equipped. -/
theorem canEquip_decides_tryEquip_witness :
    sampleCharacter.canEquip leatherArmor = true ∧
    sampleCharacter.shouldEquip leatherArmor = true ∧
    (sampleCharacter.tryEquip leatherArmor).1 = true :=
  ⟨by decide,
    (canEquip_decides_tryEquip sampleCharacter leatherArmor).1 (by decide),
    (canEquip_decides_tryEquip sampleCharacter leatherArmor).2.2 (by decide)⟩

end Roguathia
